import Mathlib

/-!
Verification of the tablet placement and rebalancing core.

The repository ships the test suite (`src/test/boost/tablets_test.cc`) and the
CQL `ALTER KEYSPACE` statement (`src/cql3/statements/alter_keyspace_statement.cc`).
The tablet implementation itself (`locator/tablets.cc`, `dht/token.cc`,
`service/tablet_allocator.cc`, `replica/tablets.cc`) is not part of the source
tree, so those components are modelled here from the specification (`spec.md`),
pinned wherever possible by the concrete behaviour the test suite demands.
-/

namespace locator

/-! ## Token arithmetic

Modelled from the spec (§3, §4.1): tokens are signed 64-bit values with the
synthetic minimum `-2^63`; the first real token is `min + 1` and the largest
real token is `2^63 - 1` (`real_min_token` / `real_max_token` in
`test_token_ownership_splitting`).  A token is mapped to a tablet by taking the
top `log2(count)` bits of its monotonic linearisation of the ring. -/

/-- Modelled from the spec: the synthetic ring minimum (`dht::minimum_token`),
value `-2^63`. -/
def min_int64 : Int := -(2 ^ 63)

/-- Modelled from the spec: the first real token, `min_token + 1`
(`real_min_token` in `test_token_ownership_splitting`). -/
def real_min_token : Int := min_int64 + 1

/-- Modelled from the spec: the largest real token, `2^63 - 1`
(`real_max_token` in `test_token_ownership_splitting`). -/
def real_max_token : Int := 2 ^ 63 - 1

/-- Modelled from the spec: the monotonic linearisation of the ring, mapping a
token to its unsigned 64-bit position (`t + 2^63`). -/
def token_unbias (t : Int) : Nat := (t + 2 ^ 63).toNat

/-- Modelled from the spec: inverse of the linearisation, mapping an unsigned
64-bit ring position back to a signed token. -/
def token_bias (n : Nat) : Int := (n : Int) - 2 ^ 63

/-- Modelled from the spec: `next_token(t)` returns the immediate successor of
a real token (`dht::next_token`). -/
def next_token (t : Int) : Int := t + 1

/-- Modelled from the spec: `dht::compaction_group_of` — the index of the
group owning token `t` among `2^b` groups: the top `b` bits of the
linearisation. -/
def compaction_group_of (b : Nat) (t : Int) : Nat :=
  token_unbias t / 2 ^ (64 - b)

/-- Modelled from the spec: `dht::last_token_of_compaction_group` — the last
token of group `g` among `2^b` groups. -/
def last_token_of_compaction_group (b g : Nat) : Int :=
  token_bias ((g + 1) * 2 ^ (64 - b) - 1)

/-- Modelled from the spec: the first token of group `g` among `2^b` groups —
the first real token for group 0, otherwise the successor of the previous
group's last token. -/
def first_token_of_compaction_group (b g : Nat) : Int :=
  if g = 0 then real_min_token else next_token (last_token_of_compaction_group b (g - 1))

/-- Modelled from the spec: the side of a tablet's range a token falls into
after a prospective split (`locator::tablet_range_side`). -/
inductive tablet_range_side where
  | left : tablet_range_side
  | right : tablet_range_side
deriving DecidableEq, Repr

/-- Modelled from the spec: a `(host, shard)` pair (`locator::tablet_replica`).
Hosts are identified by naturals standing for host UUIDs. -/
structure tablet_replica where
  host : Nat
  shard : Nat
deriving DecidableEq, Repr

/-- Modelled from the spec: the current replica set of one tablet
(`locator::tablet_info`). -/
structure tablet_info where
  replicas : List tablet_replica
deriving DecidableEq, Repr

/-- Modelled from the spec (§4.7): the seven stages of the tablet transition
state machine (`locator::tablet_transition_stage`). -/
inductive tablet_transition_stage where
  | allow_write_both_read_old
  | write_both_read_old
  | streaming
  | write_both_read_new
  | use_new
  | cleanup
  | end_migration
deriving DecidableEq, Repr

/-- Modelled from the spec: the kind of an in-progress transition
(`locator::tablet_transition_kind`). -/
inductive tablet_transition_kind where
  | migration
  | intranode_migration
  | rebuild
deriving DecidableEq, Repr

/-- Modelled from the spec: the in-progress transition of one tablet
(`locator::tablet_transition_info`): stage, kind, target replica set, the
pending replica, and an optional streaming session id. -/
structure tablet_transition_info where
  stage : tablet_transition_stage
  kind : tablet_transition_kind
  next : List tablet_replica
  pending_replica : tablet_replica
  session : Option Nat := none
deriving DecidableEq, Repr

/-- Modelled from the spec: `{way, sequence_number}` advertising an impending
split or merge (`locator::resize_decision`). -/
inductive resize_way where
  | none
  | split
  | merge
deriving DecidableEq, Repr

/-- Modelled from the spec: a table's resize decision; sequence numbers are
strictly increasing on change. -/
structure resize_decision where
  way : resize_way := .none
  sequence_number : Int := 0
deriving DecidableEq, Repr

/-- Modelled from the spec: the per-tablet state held by a tablet map: the
current replica set plus the transition, present iff a migration is in
progress (the source keeps transitions in a side map keyed by tablet id;
the partial map is embedded here as a per-tablet optional field). -/
structure tablet_state where
  info : tablet_info := ⟨[]⟩
  transition : Option tablet_transition_info := none
deriving DecidableEq, Repr

/-- Modelled from the spec: one table's tablet map (`locator::tablet_map`):
`2^log2_tablets` tablets, indexed by dense tablet ids, plus the current resize
decision. -/
structure tablet_map where
  log2_tablets : Nat
  tablets : List tablet_state
  resize : resize_decision := {}
deriving DecidableEq, Repr

def tablet_map.tablet_count (m : tablet_map) : Nat := m.tablets.length

/-- Modelled from the spec: a tablet map is well formed when its tablet count
is the claimed power of two and fits the 64-bit ring. -/
def tablet_map.wf (m : tablet_map) : Prop :=
  m.tablets.length = 2 ^ m.log2_tablets ∧ m.log2_tablets ≤ 63

instance (m : tablet_map) : Decidable m.wf := by
  unfold tablet_map.wf; infer_instance

def tablet_map.get_tablet_info (m : tablet_map) (id : Nat) : tablet_info :=
  (m.tablets.getD id {}).info

def tablet_map.get_tablet_transition_info (m : tablet_map) (id : Nat) :
    Option tablet_transition_info :=
  (m.tablets.getD id {}).transition

/-- Modelled from the spec: `tablet_map::get_last_token`. -/
def tablet_map.get_last_token (m : tablet_map) (id : Nat) : Int :=
  last_token_of_compaction_group m.log2_tablets id

/-- Modelled from the spec: `tablet_map::get_first_token` — `dht::first_token`
for the first tablet, otherwise the successor of the previous tablet's last
token. -/
def tablet_map.get_first_token (m : tablet_map) (id : Nat) : Int :=
  first_token_of_compaction_group m.log2_tablets id

/-- Modelled from the spec: `tablet_map::get_tablet_id` — the tablet owning a
token, i.e. the top `log2_tablets` bits of the token's linearisation. -/
def tablet_map.get_tablet_id (m : tablet_map) (t : Int) : Nat :=
  compaction_group_of m.log2_tablets t

/-- Modelled from the spec (§4.2) and pinned by `test_get_shard`
(tablets_test.cc:309-317): `tablet_map::get_shard` returns the host's shard
from the current replica set when the host holds a replica there; otherwise,
when the tablet has an in-progress transition whose pending replica lives on
that host, it returns the pending replica's shard (line 316 requires
`get_shard(tid, h2) == 3` where `h2` holds only the pending replica). -/
def tablet_map.get_shard (m : tablet_map) (id host : Nat) : Option Nat :=
  match (m.get_tablet_info id).replicas.find? (fun r => r.host == host) with
  | some r => some r.shard
  | none =>
    match m.get_tablet_transition_info id with
    | some tinfo =>
      if tinfo.pending_replica.host = host then some tinfo.pending_replica.shard else none
    | none => none

/-- The tablet map built by `test_get_shard` (tablets_test.cc:281-307), with
hosts `h1`, `h2`, `h3` encoded as `1`, `2`, `3`: tablet 0 has current replicas
`{(h1,0), (h3,5)}` and an in-progress migration with target `{(h1,0), (h2,3)}`
and pending replica `(h2,3)`; tablet 1 has current replicas `{(h1,2), (h3,1)}`. -/
def test_get_shard_map : tablet_map :=
  { log2_tablets := 1
  , tablets :=
      [ { info := ⟨[⟨1, 0⟩, ⟨3, 5⟩]⟩
        , transition := some
            { stage := .allow_write_both_read_old
            , kind := .migration
            , next := [⟨1, 0⟩, ⟨2, 3⟩]
            , pending_replica := ⟨2, 3⟩ } }
      , { info := ⟨[⟨1, 2⟩, ⟨3, 1⟩]⟩ } ]
  , resize := {} }

/-- Modelled from the spec (§4.1) and `test_tablet_id_and_range_side`:
`tablet_map::get_tablet_id_and_range_side` computes the owning tablet in the
doubled map and splits it into the current tablet id and the range side bit. -/
def tablet_map.get_tablet_id_and_range_side (m : tablet_map) (t : Int) :
    Nat × tablet_range_side :=
  let id_after_split := compaction_group_of (m.log2_tablets + 1) t
  (id_after_split / 2,
    if id_after_split % 2 = 0 then tablet_range_side.left else tablet_range_side.right)

/-! ## Resize control loop

Modelled from the spec (§4.6, resize control loop) and pinned by
`test_load_balancing_resize_requests`: per-table load statistics drive split
and merge decisions; a ready split is finalised by doubling the tablet map. -/

/-- Modelled from the spec (§4.6, inputs and §6): per-table load statistics
fed to the balancer — total table size in bytes and the split-ready sequence
number, the smallest value reported by any of the table's replicas
(`locator::table_load_stats`). -/
structure table_load_stats where
  size_in_bytes : Nat
  split_ready_seq_number : Int
deriving DecidableEq, Repr

/-- Modelled from the spec (§4.6, resize control loop): the resize decision
for one table, from `avg_tablet_size = table_bytes / tablet_count` and the
per-table configured target tablet size: split at or above the target, merge
below a quarter of the target, otherwise none; any change of decision takes
the next sequence number, an unchanged decision keeps its sequence number. -/
def resize_decision_for (target table_bytes tablet_count : Nat)
    (cur : resize_decision) : resize_decision :=
  let avg := table_bytes / tablet_count
  if avg ≥ target then
    match cur.way with
    | .split => cur
    | _ => { way := .split, sequence_number := cur.sequence_number + 1 }
  else if avg < target / 4 then
    match cur.way with
    | .merge => cur
    | _ => { way := .merge, sequence_number := cur.sequence_number + 1 }
  else
    match cur.way with
    | .none => cur
    | _ => { way := .none, sequence_number := cur.sequence_number + 1 }

/-- Modelled from the spec (§4.6): a table's split is ready when its resize
decision is split and all replicas report `split_ready_seq_number` at least
the decision's sequence number (the statistics carry the smallest reported
value). -/
def split_ready (m : tablet_map) (stats : table_load_stats) : Bool :=
  m.resize.way == .split
    && decide (m.resize.sequence_number ≤ stats.split_ready_seq_number)

/-- Modelled from the spec (§4.6): split finalisation — the table's tablet
count doubles, each old tablet `i` becomes the two tablets `2i` and `2i+1`
inheriting the parent's replica set, and the resize decision resets to none. -/
def finalize_split (m : tablet_map) : tablet_map :=
  { log2_tablets := m.log2_tablets + 1
  , tablets := m.tablets.flatMap (fun ts => [ts, ts])
  , resize := {} }

/-- Modelled from the spec (§4.6): one pass of the balancer's resize control
loop over one table: finalize a ready split, otherwise recompute the table's
resize decision from the load statistics. -/
def balance_resize_step (target : Nat) (stats : table_load_stats)
    (m : tablet_map) : tablet_map :=
  if split_ready m stats then finalize_split m
  else { m with resize := resize_decision_for target stats.size_in_bytes m.tablet_count m.resize }

/-! ## Topology and the drain slice of the balancer

Modelled from the spec (§4.6): `service/tablet_allocator.cc` is not in the
source tree, so the slice of `balance_tablets` the claims exercise — draining
`being_decommissioned` hosts under replication-factor and rack-uniqueness
constraints, failing wholesale when a tablet cannot be re-placed — is
modelled here; choice among equally legal target hosts (the spec's
least-loaded tie-break) is irrelevant to the claims and the model picks the
first legal candidate. -/

/-- Modelled from the spec (§6, topology input): the state of a node. -/
inductive node_state where
  | normal
  | joining
  | being_decommissioned
  | left
deriving DecidableEq, Repr

/-- Modelled from the spec (§6, topology input): one node's topology entry —
datacenter, rack, state and shard count (DCs and racks encoded as naturals). -/
structure node_info where
  dc : Nat
  rack : Nat
  state : node_state
  shard_count : Nat
deriving DecidableEq, Repr

/-- Modelled from the spec: the topology, an association list from host id to
node info. -/
abbrev topology := List (Nat × node_info)

def topology.find (topo : topology) (h : Nat) : Option node_info :=
  (List.find? (fun e => e.1 == h) topo).map Prod.snd

/-- Modelled from the spec (§4.6 output): one planned migration — tablet
(table id and tablet id), source replica and destination replica. -/
structure tablet_migration_info where
  table : Nat
  tablet : Nat
  src : tablet_replica
  dst : tablet_replica
deriving DecidableEq, Repr

/-- Modelled from the spec (§3): the tablet metadata — tablet maps keyed by
table id plus the global balancing flag. -/
structure tablet_metadata where
  tables : List (Nat × tablet_map)
  balancing_enabled : Bool := true
deriving DecidableEq, Repr

/-- Hosts of the `normal` nodes of one datacenter. -/
def normal_hosts_in_dc (topo : topology) (dc : Nat) : List Nat :=
  (topo.filter (fun e => e.2.state == .normal && e.2.dc == dc)).map Prod.fst

/-- Number of distinct racks of one datacenter among the nodes that have not
left the cluster (a draining host's rack still counts: with it the DC has ≥ RF
racks, so rack uniqueness stays in force and its replicas may only move to
hosts of its own rack — `test_decommission_rack_load_failure`). -/
def rack_count_in_dc (topo : topology) (dc : Nat) : Nat :=
  ((topo.filter (fun e => !(e.2.state == .left) && e.2.dc == dc)).map
    (fun e => e.2.rack)).dedup.length

/-- Racks holding the given replicas. -/
def racks_of (topo : topology) (reps : List tablet_replica) : List Nat :=
  reps.filterMap (fun r => (topology.find topo r.host).map node_info.rack)

/-- Modelled from the spec (§4.6 constraints): the hosts legally able to
receive a replica moved off a draining host: `normal` nodes of the same
datacenter, not in the skip-list, not already holding a replica of the tablet
and — when the datacenter has at least RF racks — not in a rack already
holding one of the tablet's other replicas. -/
def drain_candidates (topo : topology) (skip : List Nat)
    (kept : List tablet_replica) (dc : Nat) (rf : Nat) : List Nat :=
  (normal_hosts_in_dc topo dc).filter (fun h =>
    !(skip.contains h) && !((kept.map tablet_replica.host).contains h) &&
    (if rf ≤ rack_count_in_dc topo dc then
      match topology.find topo h with
      | some ni => !((racks_of topo kept).contains ni.rack)
      | none => false
    else true))

/-- Modelled from the spec (§4.6): re-place every replica of one tablet that
sits on a `being_decommissioned` host.  `done` holds the already processed
replicas.  Fails when a replica cannot legally be re-placed (RF or rack
impossibility) or when a replica's host is unknown to the topology. -/
def drain_replicas (topo : topology) (skip : List Nat) (rf : Nat)
    (done : List tablet_replica) :
    List tablet_replica →
      Except String (List tablet_replica × List (tablet_replica × tablet_replica))
  | [] => .ok (done, [])
  | r :: todo =>
    match topology.find topo r.host with
    | none => .error "replica host unknown to topology"
    | some ni =>
      if ni.state == .being_decommissioned then
        match drain_candidates topo skip (done ++ todo) ni.dc rf with
        | [] => .error "not enough nodes or racks to satisfy replication constraints"
        | c :: _ =>
          match drain_replicas topo skip rf (done ++ [⟨c, 0⟩]) todo with
          | .error e => .error e
          | .ok (reps, pairs) => .ok (reps, (r, ⟨c, 0⟩) :: pairs)
      else
        drain_replicas topo skip rf (done ++ [r]) todo

/-- Modelled from the spec (§4.6): drain every tablet of one table, tablet
ids starting at `idx`; any infeasible tablet fails the whole table. -/
def drain_tablet_list (topo : topology) (skip : List Nat) (tid idx : Nat) :
    List tablet_state → Except String (List tablet_state × List tablet_migration_info)
  | [] => .ok ([], [])
  | ts :: rest =>
    match drain_replicas topo skip ts.info.replicas.length [] ts.info.replicas with
    | .error e => .error e
    | .ok (reps, pairs) =>
      match drain_tablet_list topo skip tid (idx + 1) rest with
      | .error e => .error e
      | .ok (rest', migs) =>
        .ok ({ ts with info := ⟨reps⟩ } :: rest',
          pairs.map (fun pr => ⟨tid, idx, pr.1, pr.2⟩) ++ migs)

/-- Modelled from the spec (§4.6): the drain pass of `balance_tablets` over
the whole tablet metadata.  Returns the metadata with every migration applied
together with the emitted migrations, or an error — and then no migrations at
all — when any tablet cannot be re-placed. -/
def balance_tablets (topo : topology) (skip : List Nat) :
    List (Nat × tablet_map) →
      Except String (List (Nat × tablet_map) × List tablet_migration_info)
  | [] => .ok ([], [])
  | (tid, m) :: rest =>
    match drain_tablet_list topo skip tid 0 m.tablets with
    | .error e => .error e
    | .ok (tablets', migs) =>
      match balance_tablets topo skip rest with
      | .error e => .error e
      | .ok (rest', migs') =>
        .ok ((tid, { m with tablets := tablets' }) :: rest', migs ++ migs')

/-! ## RF reallocator

Modelled from the spec (§4.8): `service::reallocate_tablets_for_new_rf`
recomputes replica sets when the per-DC replication factor changes, returning
a per-DC status; a DC with fewer live hosts than the target RF is left
untouched while successful DCs apply. -/

/-- Modelled from the spec (§4.8): the per-DC status of an RF reallocation
(`service::tablet_reallocation_status`). -/
inductive tablet_reallocation_status where
  | success
  | not_enough_nodes
deriving DecidableEq, Repr

/-- The datacenter of a host, when the host is known to the topology. -/
def host_dc (topo : topology) (h : Nat) : Option Nat :=
  (topology.find topo h).map node_info.dc

/-- The number of replicas a replica set holds in one datacenter. -/
def dc_replica_count (topo : topology) (dc : Nat) (reps : List tablet_replica) : Nat :=
  (reps.filter (fun r => host_dc topo r.host == some dc)).length

/-- Modelled from the spec (§4.8): adjust one tablet's replica set in one
datacenter to the new RF: downsize drops surplus replicas of that DC, upsize
adds replicas on live hosts of the DC not already holding one (the spec's
load- and rack-based preference among equally legal hosts does not affect the
claims; the model takes the first legal hosts). -/
def adjust_dc_replicas (topo : topology) (dc rf : Nat)
    (reps : List tablet_replica) : List tablet_replica :=
  let inDc := reps.filter (fun r => host_dc topo r.host == some dc)
  let outDc := reps.filter (fun r => !(host_dc topo r.host == some dc))
  if rf ≤ inDc.length then
    outDc ++ inDc.take rf
  else
    let extra := ((normal_hosts_in_dc topo dc).filter
      (fun h => !((inDc.map tablet_replica.host).contains h))).take (rf - inDc.length)
    outDc ++ inDc ++ extra.map (fun h => ⟨h, 0⟩)

/-- Modelled from the spec (§4.8): reallocate one datacenter: when the DC has
fewer live hosts than the target RF the status is `not_enough_nodes` and the
tablets are untouched; otherwise every tablet's replica set in that DC is
adjusted to the new RF and the status is `success`. -/
def reallocate_for_dc (topo : topology) (dc rf : Nat)
    (tablets : List tablet_state) : List tablet_state × tablet_reallocation_status :=
  if (normal_hosts_in_dc topo dc).length < rf then
    (tablets, .not_enough_nodes)
  else
    (tablets.map (fun ts =>
      { ts with info := ⟨adjust_dc_replicas topo dc rf ts.info.replicas⟩ }), .success)

/-- Modelled from the spec (§4.8): `service::reallocate_tablets_for_new_rf` —
process each datacenter of the new RF map in turn, collecting per-DC
statuses; failed DCs leave their replicas untouched while successful DCs
apply. -/
def reallocate_tablets_for_new_rf (topo : topology) (tablets : List tablet_state) :
    List (Nat × Nat) → List tablet_state × List (Nat × tablet_reallocation_status)
  | [] => (tablets, [])
  | (dc, rf) :: rest =>
    let step := reallocate_for_dc topo dc rf tablets
    let next := reallocate_tablets_for_new_rf topo step.1 rest
    (next.1, (dc, step.2) :: next.2)

/-- The topology of `test_reallocate_tablets_for_new_rf_not_enough_nodes`:
three normal hosts in one datacenter. -/
def topo_new_rf : topology :=
  [ (1, ⟨100, 10, .normal, 3⟩)
  , (2, ⟨100, 20, .normal, 3⟩)
  , (3, ⟨100, 30, .normal, 3⟩) ]

/-- Two tablets with RF 3 in datacenter 100. -/
def tablets_new_rf : List tablet_state :=
  [ { info := ⟨[⟨1, 0⟩, ⟨2, 0⟩, ⟨3, 0⟩]⟩ }
  , { info := ⟨[⟨1, 1⟩, ⟨2, 1⟩, ⟨3, 1⟩]⟩ } ]

/-- A replica that does not sit on a `being_decommissioned` host (and whose
host is known to the topology). -/
def replica_not_draining (topo : topology) (r : tablet_replica) : Prop :=
  ∃ ni, topology.find topo r.host = some ni ∧ ni.state ≠ .being_decommissioned

/-- A legal migration destination: not in the skip-list and on a `normal`
host — in particular never on a `being_decommissioned` host. -/
def migration_dst_legal (topo : topology) (skip : List Nat) (d : tablet_replica) : Prop :=
  d.host ∉ skip ∧ ∃ ni, topology.find topo d.host = some ni ∧ ni.state = .normal

/-- Total replica count a host carries over the whole tablet metadata (the
load-sketch `get_load` over current replicas). -/
def tables_load (tables : List (Nat × tablet_map)) (h : Nat) : Nat :=
  (tables.map (fun e =>
    (e.2.tablets.map (fun ts =>
      (ts.info.replicas.filter (fun r => r.host == h)).length)).sum)).sum

/-- The load-sketch `get_avg_shard_load`: total load divided by the host's
shard count. -/
def avg_shard_load (topo : topology) (tables : List (Nat × tablet_map)) (h : Nat) : Nat :=
  match topology.find topo h with
  | some ni => tables_load tables h / ni.shard_count
  | none => 0

instance {ε α : Type} [DecidableEq ε] [DecidableEq α] : DecidableEq (Except ε α) :=
  fun x y =>
    match x, y with
    | .ok a, .ok b =>
      if h : a = b then isTrue (by rw [h])
      else isFalse (by intro hc; cases hc; exact h rfl)
    | .error a, .error b =>
      if h : a = b then isTrue (by rw [h])
      else isFalse (by intro hc; cases hc; exact h rfl)
    | .ok _, .error _ => isFalse (by intro hc; cases hc)
    | .error _, .ok _ => isFalse (by intro hc; cases hc)

/-- The topology of `test_decommission_rf_met`: hosts 1 and 2 normal, host 3
being decommissioned, all in one DC and rack, 2 shards each. -/
def topo_rf_met : topology :=
  [ (1, ⟨0, 0, .normal, 2⟩)
  , (2, ⟨0, 0, .normal, 2⟩)
  , (3, ⟨0, 0, .being_decommissioned, 2⟩) ]

/-- The tablet map of `test_decommission_rf_met`: 4 tablets, RF 2, two
tablets holding a replica on the draining host 3. -/
def rf_met_map : tablet_map :=
  { log2_tablets := 2
  , tablets :=
      [ { info := ⟨[⟨1, 0⟩, ⟨2, 1⟩]⟩ }
      , { info := ⟨[⟨1, 0⟩, ⟨2, 1⟩]⟩ }
      , { info := ⟨[⟨1, 0⟩, ⟨3, 0⟩]⟩ }
      , { info := ⟨[⟨2, 1⟩, ⟨3, 1⟩]⟩ } ]
  , resize := {} }

/-- The tablet metadata of `test_decommission_rf_met`. -/
def tables_rf_met : List (Nat × tablet_map) := [(1, rf_met_map)]

/-- The metadata produced by the drain pass on the `test_decommission_rf_met`
fixture: host 3's replicas moved to hosts 2 and 1. -/
def balanced_rf_met_tables : List (Nat × tablet_map) :=
  [ (1, { log2_tablets := 2
        , tablets :=
            [ { info := ⟨[⟨1, 0⟩, ⟨2, 1⟩]⟩ }
            , { info := ⟨[⟨1, 0⟩, ⟨2, 1⟩]⟩ }
            , { info := ⟨[⟨1, 0⟩, ⟨2, 0⟩]⟩ }
            , { info := ⟨[⟨2, 1⟩, ⟨1, 0⟩]⟩ } ]
        , resize := {} }) ]

/-- The migrations emitted by the drain pass on the `test_decommission_rf_met`
fixture. -/
def balanced_rf_met_migs : List tablet_migration_info :=
  [ ⟨1, 2, ⟨3, 0⟩, ⟨2, 0⟩⟩
  , ⟨1, 3, ⟨3, 1⟩, ⟨1, 0⟩⟩ ]

/-- The topology of `test_decommission_rack_load_failure`: hosts 1-3 normal in
rack 1, host 4 being decommissioned alone in rack 2, one DC. -/
def topo_rack_fail : topology :=
  [ (1, ⟨0, 1, .normal, 1⟩)
  , (2, ⟨0, 1, .normal, 1⟩)
  , (3, ⟨0, 1, .normal, 1⟩)
  , (4, ⟨0, 2, .being_decommissioned, 1⟩) ]

/-- The tablet map of `test_decommission_rack_load_failure`: 4 tablets, RF 2,
each holding one replica on the draining host 4 and one in rack 1. -/
def rack_fail_map : tablet_map :=
  { log2_tablets := 2
  , tablets :=
      [ { info := ⟨[⟨1, 0⟩, ⟨4, 0⟩]⟩ }
      , { info := ⟨[⟨2, 0⟩, ⟨4, 0⟩]⟩ }
      , { info := ⟨[⟨3, 0⟩, ⟨4, 0⟩]⟩ }
      , { info := ⟨[⟨1, 0⟩, ⟨4, 0⟩]⟩ } ]
  , resize := {} }

/-- The tablet metadata of `test_decommission_rack_load_failure`. -/
def tables_rack_fail : List (Nat × tablet_map) := [(1, rack_fail_map)]

/-! ## Tablet metadata persistence

Modelled from the spec (§4.3, §6): `replica/tablets.cc` is not in the source
tree, so `save_tablet_metadata` / `read_tablet_metadata` are modelled on the
catalog schema of §6: one row per tablet keyed by `(table_id, last_token)`,
a per-table sidecar row (key token `min_token − 1`) carrying the tablet
count, the resize columns on the row keyed by the ring maximum, and a
table-independent singleton row holding `balancing_enabled`. -/

/-- Modelled from the spec (§6, catalog schema): one row of the system
tablets table, keyed by `(table, last_token)`; the remaining columns are
nullable; `tablet_count` is the per-table sidecar column. -/
structure catalog_row where
  table : Nat
  last_token : Int
  replicas : Option (List tablet_replica) := none
  new_replicas : Option (List tablet_replica) := none
  stage : Option tablet_transition_stage := none
  transition : Option tablet_transition_kind := none
  session : Option Nat := none
  resize_type : Option resize_way := none
  resize_seq_number : Option Int := none
  tablet_count : Option Nat := none
  timestamp : Int := 0
deriving DecidableEq, Repr

/-- Modelled from the spec (§4.3, §6): the catalog — the tablets table rows
plus the table-independent singleton row carrying `balancing_enabled`. -/
structure catalog where
  rows : List catalog_row
  balancing_enabled : Bool
deriving DecidableEq, Repr

/-- The catalog row persisted for one tablet of one table: key
`(table, last token of the tablet)`, the replica set, the transition columns
when a transition is in progress, and — on the last tablet's row, whose key
token is the ring maximum — the table's resize decision. -/
def tablet_row (ts_ : Int) (tid b cnt : Nat) (rd : resize_decision)
    (id : Nat) (st : tablet_state) : catalog_row :=
  { table := tid
  , last_token := last_token_of_compaction_group b id
  , replicas := some st.info.replicas
  , new_replicas := st.transition.map tablet_transition_info.next
  , stage := st.transition.map tablet_transition_info.stage
  , transition := st.transition.map tablet_transition_info.kind
  , session := st.transition.bind tablet_transition_info.session
  , resize_type := if id = cnt - 1 then some rd.way else none
  , resize_seq_number := if id = cnt - 1 then some rd.sequence_number else none
  , tablet_count := none
  , timestamp := ts_ }

/-- The rows persisted for one table: the sidecar row carrying the tablet
count (key token `min_token − 1`) followed by one row per tablet. -/
def save_table_rows (ts_ : Int) (tid : Nat) (m : tablet_map) : List catalog_row :=
  { table := tid, last_token := min_int64 - 1
  , tablet_count := some m.tablet_count, timestamp := ts_ }
    :: (List.range m.tablet_count).map (fun id =>
        tablet_row ts_ tid m.log2_tablets m.tablet_count m.resize id
          (m.tablets.getD id {}))

/-- Modelled from the spec (§4.3 Persist): `replica::save_tablet_metadata` —
one atomic batch of catalog rows for the whole metadata, stamped `ts`. -/
def save_tablet_metadata (tm : tablet_metadata) (ts_ : Int) : catalog :=
  { rows := tm.tables.flatMap (fun e => save_table_rows ts_ e.1 e.2)
  , balancing_enabled := tm.balancing_enabled }

/-- The catalog row with key `(tid, tok)`, if any. -/
def find_row (c : catalog) (tid : Nat) (tok : Int) : Option catalog_row :=
  c.rows.find? (fun r => r.table == tid && r.last_token == tok)

/-- Binary logarithm by structural recursion on a fuel bound. -/
def log2_fuel : Nat → Nat → Nat
  | 0, _ => 0
  | fuel + 1, n => if n ≤ 1 then 0 else 1 + log2_fuel fuel (n / 2)

/-- The floor binary logarithm, used by `read_tablet_metadata` to recover
`log2_tablets` from the persisted tablet count. -/
def floor_log2 (n : Nat) : Nat := log2_fuel n n

/-- Modelled from the spec (§4.3 Read): rebuild the pending transition of one
tablet from its row: present exactly when the stage, kind and target-replica
columns are set; the pending replica is recovered as the target replica
absent from the current set (invariant 4 makes it unique). -/
def read_transition (row : catalog_row) (cur : List tablet_replica) :
    Option tablet_transition_info :=
  match row.stage, row.transition, row.new_replicas with
  | some st, some k, some nr =>
    some { stage := st, kind := k, next := nr
         , pending_replica := (nr.filter (fun r => !(cur.contains r))).headD ⟨0, 0⟩
         , session := row.session }
  | _, _, _ => none

/-- Modelled from the spec (§4.3 Read): rebuild one tablet's state from its
catalog row, located by the tablet's last token. -/
def read_tablet_state (c : catalog) (tid b id : Nat) : tablet_state :=
  match find_row c tid (last_token_of_compaction_group b id) with
  | some row =>
    { info := ⟨row.replicas.getD []⟩
    , transition := read_transition row (row.replicas.getD []) }
  | none => {}

/-- Modelled from the spec (§4.3 Read): rebuild one table's tablet map: the
tablet count from the sidecar row, one tablet per row, and the resize
decision from the row keyed by the ring maximum. -/
def read_tablet_map (c : catalog) (tid cnt : Nat) : tablet_map :=
  { log2_tablets := floor_log2 cnt
  , tablets := (List.range cnt).map (read_tablet_state c tid (floor_log2 cnt))
  , resize :=
      match find_row c tid real_max_token with
      | some row =>
        { way := row.resize_type.getD .none
        , sequence_number := row.resize_seq_number.getD 0 }
      | none => {} }

/-- Modelled from the spec (§4.3 Read): `replica::read_tablet_metadata` —
scan the catalog and reconstruct the metadata, one table per sidecar row. -/
def read_tablet_metadata (c : catalog) : tablet_metadata :=
  { tables := c.rows.filterMap (fun r =>
      r.tablet_count.map (fun cnt => (r.table, read_tablet_map c r.table cnt)))
  , balancing_enabled := c.balancing_enabled }

/-- Modelled from the spec (§3, invariants): valid tablet metadata — distinct
table ids, per table a well-formed power-of-two tablet count, and for every
in-progress transition the target replicas absent from the current replica
set are exactly the pending replica (invariant 4). -/
def tablet_metadata.valid (tm : tablet_metadata) : Prop :=
  (tm.tables.map Prod.fst).Nodup ∧
  ∀ e ∈ tm.tables, e.2.wf ∧
    ∀ ts ∈ e.2.tablets, ∀ ti, ts.transition = some ti →
      ti.next.filter (fun r => !(ts.info.replicas.contains r)) = [ti.pending_replica]

instance (tm : tablet_metadata) : Decidable tm.valid := by
  unfold tablet_metadata.valid; infer_instance

/-- A two-table metadata exercising transitions, sessions, resize decisions
and distinct tablet counts, patterned on `test_tablet_metadata_persistence`. -/
def persistence_fixture : tablet_metadata :=
  { tables :=
      [ (1, { log2_tablets := 0
            , tablets := [{ info := ⟨[⟨1, 0⟩, ⟨2, 3⟩, ⟨3, 1⟩]⟩ }]
            , resize := { way := .split, sequence_number := 1 } })
      , (2, { log2_tablets := 2
            , tablets :=
                [ { info := ⟨[⟨1, 0⟩]⟩ }
                , { info := ⟨[⟨3, 3⟩]⟩
                  , transition := some
                      { stage := .allow_write_both_read_old
                      , kind := .migration
                      , next := [⟨3, 3⟩, ⟨1, 7⟩]
                      , pending_replica := ⟨1, 7⟩ } }
                , { info := ⟨[⟨2, 2⟩]⟩
                  , transition := some
                      { stage := .use_new
                      , kind := .migration
                      , next := [⟨1, 4⟩, ⟨2, 2⟩]
                      , pending_replica := ⟨1, 4⟩
                      , session := some 42 } }
                , { info := ⟨[⟨1, 1⟩]⟩ } ]
            , resize := {} }) ]
  , balancing_enabled := true }

end locator

namespace cql3

/-! ## ALTER KEYSPACE validation

Embedded from `src/cql3/statements/alter_keyspace_statement.cc`,
`alter_keyspace_statement::validate` (lines 39-82).  The collaborators the
code calls (`is_system_keyspace`, `ks_prop_defs::validate`, `find_keyspace`,
storage-option and replication-strategy queries) are not part of the source
tree; their outcomes are abstracted as an environment record, and `validate`
mirrors the code's sequence of checks over them. -/

/-- The two error kinds `validate` throws (`exceptions::invalid_request_exception`
and `exceptions::configuration_exception`). -/
inductive validation_error where
  | invalid_request (msg : String)
  | configuration (msg : String)
deriving DecidableEq, Repr

/-- Outcomes of the collaborators called by
`alter_keyspace_statement::validate`, one field per call site. -/
structure alter_ks_env where
  /-- `::is_system_keyspace`, applied to the lowercased name. -/
  is_system_keyspace : String → Bool
  /-- Error thrown by `_attrs->validate()`, if any. -/
  attrs_validate_error : Option validation_error := none
  /-- `bool(_attrs->get_replication_strategy_class())`. -/
  has_replication_strategy_class : Bool
  /-- `_attrs->get_replication_options().empty()`. -/
  replication_options_empty : Bool
  /-- `qp.db().find_keyspace(_name)` succeeds (else `no_such_keyspace`, a
  `std::runtime_error` the catch block rethrows as `invalid_request`). -/
  keyspace_exists : Bool
  /-- `qp.proxy().features().keyspace_storage_options`. -/
  storage_options_feature_enabled : Bool
  /-- `new_options.is_local_type()`. -/
  new_storage_is_local : Bool
  /-- `current_options.can_update_to(new_options)`. -/
  can_update_storage : Bool
  /-- `new_rs->is_per_table()`. -/
  new_is_per_table : Bool
  /-- `ks.get_replication_strategy().is_per_table()`. -/
  cur_is_per_table : Bool

/-- The lowercasing of the keyspace name:
`std::transform(tmp.begin(), tmp.end(), tmp.begin(), ::tolower)`, applied
character by character. -/
def to_lower_name (s : String) : String := ⟨s.data.map Char.toLower⟩

/-- `alter_keyspace_statement::validate`
(src/cql3/statements/alter_keyspace_statement.cc:39-82): lowercase the name
and reject system keyspaces; run `_attrs->validate()`; reject replication
options without a strategy class (`configuration` error); then, in the try
block, reject an unknown keyspace, unsupported or un-updatable storage
options, and a change of the replication strategy's vnode/tablets flavor
(all `invalid_request`). -/
def alter_keyspace_statement.validate (name : String) (env : alter_ks_env) :
    Except validation_error Unit :=
  if env.is_system_keyspace (to_lower_name name) then
    .error (.invalid_request "Cannot alter system keyspace")
  else match env.attrs_validate_error with
  | some e => .error e
  | none =>
    if !env.has_replication_strategy_class && !env.replication_options_empty then
      .error (.configuration "Missing replication strategy class")
    else if !env.keyspace_exists then
      .error (.invalid_request ("Unknown keyspace " ++ name))
    else if !env.storage_options_feature_enabled && !env.new_storage_is_local then
      .error (.invalid_request "Keyspace storage options not supported in the cluster")
    else if !env.can_update_storage then
      .error (.invalid_request "Cannot alter storage options")
    else if env.new_is_per_table != env.cur_is_per_table then
      .error (.invalid_request "Cannot alter replication strategy vnode/tablets flavor")
    else .ok ()

/-- An environment whose system-keyspace predicate recognises `system`, all
other checks passing. -/
def env_system : alter_ks_env :=
  { is_system_keyspace := fun s => s == "system"
  , has_replication_strategy_class := true
  , replication_options_empty := true
  , keyspace_exists := true
  , storage_options_feature_enabled := true
  , new_storage_is_local := true
  , can_update_storage := true
  , new_is_per_table := false
  , cur_is_per_table := false }

/-- An environment with replication options given but no replication strategy
class. -/
def env_missing_class : alter_ks_env :=
  { is_system_keyspace := fun _ => false
  , has_replication_strategy_class := false
  , replication_options_empty := false
  , keyspace_exists := true
  , storage_options_feature_enabled := true
  , new_storage_is_local := true
  , can_update_storage := true
  , new_is_per_table := false
  , cur_is_per_table := false }

/-- An environment where the new replication strategy is tablet-based while
the current one is vnode-based. -/
def env_flavor_change : alter_ks_env :=
  { is_system_keyspace := fun _ => false
  , has_replication_strategy_class := true
  , replication_options_empty := true
  , keyspace_exists := true
  , storage_options_feature_enabled := true
  , new_storage_is_local := true
  , can_update_storage := true
  , new_is_per_table := true
  , cur_is_per_table := false }

end cql3

namespace locator

/-! ## Theorems: token arithmetic -/

theorem token_unbias_bias (n : Nat) : token_unbias (token_bias n) = n := by
  simp [token_unbias, token_bias]

theorem token_unbias_bias_add_one (n : Nat) :
    token_unbias (token_bias n + 1) = n + 1 := by
  have : token_bias n + 1 = token_bias (n + 1) := by
    simp [token_bias]; ring
  rw [this, token_unbias_bias]

theorem pow_sub_mul_two {b : Nat} (hb : b ≤ 63) :
    2 ^ (64 - b) = 2 ^ (63 - b) * 2 := by
  have h : 64 - b = (63 - b) + 1 := by omega
  rw [h, pow_succ]

theorem two_le_pow_sub {b : Nat} (hb : b ≤ 63) : 2 ≤ 2 ^ (64 - b) := by
  have h1 : 1 ≤ 64 - b := by omega
  calc 2 = 2 ^ 1 := (pow_one 2).symm
  _ ≤ 2 ^ (64 - b) := Nat.pow_le_pow_right (by norm_num) h1

theorem compaction_group_of_last {b : Nat} (hb : b ≤ 63) (g : Nat) :
    compaction_group_of b (last_token_of_compaction_group b g) = g := by
  unfold compaction_group_of last_token_of_compaction_group
  rw [token_unbias_bias]
  have hM2 : 2 ≤ 2 ^ (64 - b) := two_le_pow_sub hb
  have e1 : (g + 1) * 2 ^ (64 - b) = 2 ^ (64 - b) * g + 2 ^ (64 - b) := by ring
  have hrw : (g + 1) * 2 ^ (64 - b) - 1 = 2 ^ (64 - b) * g + (2 ^ (64 - b) - 1) := by
    omega
  have hdiv : (2 ^ (64 - b) - 1) / 2 ^ (64 - b) = 0 := Nat.div_eq_of_lt (by omega)
  rw [hrw, Nat.mul_add_div (by omega), hdiv]
  omega

theorem compaction_group_of_after_last {b : Nat} (hb : b ≤ 63) (g : Nat) :
    compaction_group_of b (next_token (last_token_of_compaction_group b g)) = g + 1 := by
  unfold compaction_group_of last_token_of_compaction_group next_token
  rw [token_unbias_bias_add_one]
  have hM2 : 2 ≤ 2 ^ (64 - b) := two_le_pow_sub hb
  have e1 : (g + 1) * 2 ^ (64 - b) = 2 ^ (64 - b) * (g + 1) := by ring
  have hge : 2 ^ (64 - b) ≤ (g + 1) * 2 ^ (64 - b) :=
    Nat.le_mul_of_pos_left (2 ^ (64 - b)) (by omega)
  have hrw : (g + 1) * 2 ^ (64 - b) - 1 + 1 = 2 ^ (64 - b) * (g + 1) := by omega
  have hpos : 0 < 2 ^ (64 - b) := by omega
  rw [hrw, Nat.mul_div_cancel_left _ hpos]

theorem compaction_group_of_real_min {b : Nat} (hb : b ≤ 63) :
    compaction_group_of b real_min_token = 0 := by
  unfold compaction_group_of real_min_token min_int64 token_unbias
  have h1 : (-(2 ^ 63) + 1 + 2 ^ 63 : Int) = 1 := by ring
  rw [h1]
  have hM2 : 2 ≤ 2 ^ (64 - b) := by
    have : 1 ≤ 64 - b := by omega
    calc 2 = 2 ^ 1 := (pow_one 2).symm
    _ ≤ 2 ^ (64 - b) := Nat.pow_le_pow_right (by norm_num) this
  simp [Nat.div_eq_of_lt (by omega : (1 : Nat) < 2 ^ (64 - b))]

theorem last_token_of_last_group {b : Nat} (hb : b ≤ 63) :
    last_token_of_compaction_group b (2 ^ b - 1) = real_max_token := by
  unfold last_token_of_compaction_group token_bias real_max_token
  have hpow : 2 ^ b - 1 + 1 = 2 ^ b := by
    have : 1 ≤ 2 ^ b := Nat.one_le_two_pow
    omega
  rw [hpow]
  have hmul : 2 ^ b * 2 ^ (64 - b) = 2 ^ 64 := by
    rw [← pow_add]
    congr 1
    omega
  rw [hmul]
  have h1 : (1 : Nat) ≤ 2 ^ 64 := Nat.one_le_two_pow
  have h2 : ((2 ^ 64 - 1 : Nat) : Int) = 2 ^ 64 - 1 := by
    push_cast [h1]
  rw [h2]
  norm_num

theorem last_token_injective {b : Nat} (g g' : Nat)
    (h : last_token_of_compaction_group b g = last_token_of_compaction_group b g') :
    g = g' := by
  have h2 : token_unbias (last_token_of_compaction_group b g)
      = token_unbias (last_token_of_compaction_group b g') := by rw [h]
  unfold last_token_of_compaction_group at h2
  rw [token_unbias_bias, token_unbias_bias] at h2
  have hM1 : 1 ≤ 2 ^ (64 - b) := Nat.one_le_two_pow
  have e1 : (g + 1) * 2 ^ (64 - b) = g * 2 ^ (64 - b) + 2 ^ (64 - b) := by ring
  have e2 : (g' + 1) * 2 ^ (64 - b) = g' * 2 ^ (64 - b) + 2 ^ (64 - b) := by ring
  have heq : g * 2 ^ (64 - b) = g' * 2 ^ (64 - b) := by omega
  exact Nat.eq_of_mul_eq_mul_right (by omega) heq

theorem compaction_group_of_first {b : Nat} (hb : b ≤ 63) (g : Nat) :
    compaction_group_of b (first_token_of_compaction_group b g) = g := by
  unfold first_token_of_compaction_group
  rcases Nat.eq_zero_or_pos g with hg | hg
  · simp [hg, compaction_group_of_real_min hb]
  · rw [if_neg (by omega), compaction_group_of_after_last hb]
    omega

theorem compaction_group_of_succ_pow {b : Nat} (hb : b ≤ 63) (t : Int) :
    compaction_group_of b t = compaction_group_of (b + 1) t / 2 := by
  unfold compaction_group_of
  have h1 : 64 - b = (64 - (b + 1)) + 1 := by omega
  rw [h1, pow_succ, ← Nat.div_div_eq_div_mul]

theorem last_token_doubled {b : Nat} (hb : b ≤ 63) (i : Nat) :
    last_token_of_compaction_group (b + 1) (2 * i + 1) = last_token_of_compaction_group b i := by
  unfold last_token_of_compaction_group
  congr 1
  have h1 : (2 * i + 1 + 1) * 2 ^ (64 - (b + 1)) = (i + 1) * 2 ^ (64 - b) := by
    rw [pow_sub_mul_two hb]
    have h2 : 64 - (b + 1) = 63 - b := by omega
    rw [h2]
    ring
  rw [h1]

theorem first_token_doubled {b : Nat} (hb : b ≤ 63) (i : Nat) :
    first_token_of_compaction_group (b + 1) (2 * i) = first_token_of_compaction_group b i := by
  rcases Nat.eq_zero_or_pos i with hi | hi
  · simp [hi, first_token_of_compaction_group]
  · unfold first_token_of_compaction_group
    rw [if_neg (by omega), if_neg (by omega)]
    have h1 : 2 * i - 1 = 2 * (i - 1) + 1 := by omega
    rw [h1, last_token_doubled hb]

/-- C5: for every tablet map whose count is a power of two (or 1), the
per-tablet token ranges partition the ring: the first tablet's first token is
`min_token + 1`, the last tablet's last token is the largest real token, each
subsequent tablet's first token is `next_token` of the previous tablet's last
token, and `get_tablet_id` maps every tablet's first and last token back to
that tablet. -/
theorem C5_token_ranges_partition (m : tablet_map)
    (hb : m.log2_tablets ≤ 63) (hcount : m.tablet_count = 2 ^ m.log2_tablets) :
    m.get_first_token 0 = real_min_token ∧
    m.get_last_token (m.tablet_count - 1) = real_max_token ∧
    ∀ id, id < m.tablet_count →
      (id ≠ 0 → m.get_first_token id = next_token (m.get_last_token (id - 1))) ∧
      m.get_tablet_id (m.get_first_token id) = id ∧
      m.get_tablet_id (m.get_last_token id) = id := by
  refine ⟨?_, ?_, ?_⟩
  · simp [tablet_map.get_first_token, first_token_of_compaction_group]
  · rw [hcount]
    exact last_token_of_last_group hb
  · intro id _
    refine ⟨?_, ?_, ?_⟩
    · intro hid
      simp [tablet_map.get_first_token, tablet_map.get_last_token,
        first_token_of_compaction_group, if_neg hid]
    · exact compaction_group_of_first hb id
    · exact compaction_group_of_last hb id

theorem C5_token_ranges_partition_witness :
    (tablet_map.mk 2 (List.replicate 4 {}) {}).log2_tablets ≤ 63 ∧
    (tablet_map.mk 2 (List.replicate 4 {}) {}).tablet_count
      = 2 ^ (tablet_map.mk 2 (List.replicate 4 {}) {}).log2_tablets ∧
    ((tablet_map.mk 2 (List.replicate 4 {}) {}).get_first_token 0 = real_min_token ∧
     (tablet_map.mk 2 (List.replicate 4 {}) {}).get_last_token
       ((tablet_map.mk 2 (List.replicate 4 {}) {}).tablet_count - 1) = real_max_token ∧
     ∀ id, id < (tablet_map.mk 2 (List.replicate 4 {}) {}).tablet_count →
       (id ≠ 0 → (tablet_map.mk 2 (List.replicate 4 {}) {}).get_first_token id
          = next_token ((tablet_map.mk 2 (List.replicate 4 {}) {}).get_last_token (id - 1))) ∧
       (tablet_map.mk 2 (List.replicate 4 {}) {}).get_tablet_id
          ((tablet_map.mk 2 (List.replicate 4 {}) {}).get_first_token id) = id ∧
       (tablet_map.mk 2 (List.replicate 4 {}) {}).get_tablet_id
          ((tablet_map.mk 2 (List.replicate 4 {}) {}).get_last_token id) = id) :=
  ⟨by decide, by decide,
    C5_token_ranges_partition (tablet_map.mk 2 (List.replicate 4 {}) {})
      (by decide) (by decide)⟩

/-- C6: for a tablet map with `2^b` tablets and a real token `t` owned by
tablet `i`, `get_tablet_id_and_range_side t` returns `(i, left)` exactly when
`t` lies in the range of tablet `2i` of the doubled map and `(i, right)`
exactly when `t` lies in the range of tablet `2i+1`; the token boundaries of
tablet `i` are preserved by the prospective split. -/
theorem C6_tablet_id_and_range_side (m : tablet_map)
    (hb : m.log2_tablets ≤ 63) (t : Int)
    (_ht1 : real_min_token ≤ t) (_ht2 : t ≤ real_max_token)
    (i : Nat) (hi : m.get_tablet_id t = i) :
    (m.get_tablet_id_and_range_side t = (i, tablet_range_side.left) ↔
      compaction_group_of (m.log2_tablets + 1) t = 2 * i) ∧
    (m.get_tablet_id_and_range_side t = (i, tablet_range_side.right) ↔
      compaction_group_of (m.log2_tablets + 1) t = 2 * i + 1) ∧
    first_token_of_compaction_group (m.log2_tablets + 1) (2 * i) = m.get_first_token i ∧
    last_token_of_compaction_group (m.log2_tablets + 1) (2 * i + 1) = m.get_last_token i := by
  have hsucc := compaction_group_of_succ_pow hb t
  rw [tablet_map.get_tablet_id] at hi
  have hji : compaction_group_of (m.log2_tablets + 1) t / 2 = i := by
    rw [← hsucc, hi]
  have hdm := Nat.div_add_mod (compaction_group_of (m.log2_tablets + 1) t) 2
  have hmod : compaction_group_of (m.log2_tablets + 1) t % 2 < 2 :=
    Nat.mod_lt _ (by norm_num)
  refine ⟨?_, ?_, first_token_doubled hb i, last_token_doubled hb i⟩
  · constructor
    · intro h
      simp only [tablet_map.get_tablet_id_and_range_side, Prod.mk.injEq] at h
      rcases h with ⟨-, hside⟩
      by_cases hpar : compaction_group_of (m.log2_tablets + 1) t % 2 = 0
      · omega
      · rw [if_neg hpar] at hside
        exact absurd hside (by simp)
    · intro h
      simp only [tablet_map.get_tablet_id_and_range_side, Prod.mk.injEq]
      have hpar : compaction_group_of (m.log2_tablets + 1) t % 2 = 0 := by omega
      rw [if_pos hpar]
      exact ⟨hji, rfl⟩
  · constructor
    · intro h
      simp only [tablet_map.get_tablet_id_and_range_side, Prod.mk.injEq] at h
      rcases h with ⟨-, hside⟩
      by_cases hpar : compaction_group_of (m.log2_tablets + 1) t % 2 = 0
      · rw [if_pos hpar] at hside
        exact absurd hside (by simp)
      · omega
    · intro h
      simp only [tablet_map.get_tablet_id_and_range_side, Prod.mk.injEq]
      have hpar : ¬ compaction_group_of (m.log2_tablets + 1) t % 2 = 0 := by omega
      rw [if_neg hpar]
      exact ⟨hji, rfl⟩

theorem C6_tablet_id_and_range_side_witness :
    (tablet_map.mk 2 (List.replicate 4 {}) {}).log2_tablets ≤ 63 ∧
    real_min_token ≤ (5 : Int) ∧ (5 : Int) ≤ real_max_token ∧
    (tablet_map.mk 2 (List.replicate 4 {}) {}).get_tablet_id 5 = 2 ∧
    (((tablet_map.mk 2 (List.replicate 4 {}) {}).get_tablet_id_and_range_side 5
        = (2, tablet_range_side.left) ↔
      compaction_group_of ((tablet_map.mk 2 (List.replicate 4 {}) {}).log2_tablets + 1) 5
        = 2 * 2) ∧
     ((tablet_map.mk 2 (List.replicate 4 {}) {}).get_tablet_id_and_range_side 5
        = (2, tablet_range_side.right) ↔
      compaction_group_of ((tablet_map.mk 2 (List.replicate 4 {}) {}).log2_tablets + 1) 5
        = 2 * 2 + 1) ∧
     first_token_of_compaction_group
        ((tablet_map.mk 2 (List.replicate 4 {}) {}).log2_tablets + 1) (2 * 2)
        = (tablet_map.mk 2 (List.replicate 4 {}) {}).get_first_token 2 ∧
     last_token_of_compaction_group
        ((tablet_map.mk 2 (List.replicate 4 {}) {}).log2_tablets + 1) (2 * 2 + 1)
        = (tablet_map.mk 2 (List.replicate 4 {}) {}).get_last_token 2) :=
  ⟨by decide, by decide, by decide, by decide,
    C6_tablet_id_and_range_side (tablet_map.mk 2 (List.replicate 4 {}) {})
      (by decide) 5 (by decide) (by decide) 2 (by decide)⟩

theorem find_host_of_nodup {l : List tablet_replica} {host : Nat} {r : tablet_replica}
    (hnd : (l.map tablet_replica.host).Nodup) (hr : r ∈ l) (hh : r.host = host) :
    l.find? (fun x => x.host == host) = some r := by
  induction l with
  | nil => cases hr
  | cons x xs ih =>
    simp only [List.map_cons, List.nodup_cons] at hnd
    rcases List.mem_cons.mp hr with hx | hx
    · subst hx
      exact List.find?_cons_of_pos _ (by simp [hh])
    · have hxh : ¬ ((fun y : tablet_replica => y.host == host) x = true) := by
        simp only [beq_iff_eq]
        intro he
        apply hnd.1
        exact List.mem_map.mpr ⟨r, hx, by rw [hh, he]⟩
      have hstep : List.find? (fun y : tablet_replica => y.host == host) (x :: xs)
          = List.find? (fun y : tablet_replica => y.host == host) xs :=
        List.find?_cons_of_neg _ hxh
      rw [hstep]
      exact ih hnd.2 hx

/-- C2 counterexample: on the fixture of `test_get_shard`, host 2 holds no
replica of tablet 0 in the current replica set, yet `get_shard` returns the
transition's pending shard 3 (as tablets_test.cc:316 requires), refuting the
claim that `get_shard` returns no value when the host is absent from the
current replica set. -/
theorem C2_get_shard_counterexample :
    (∀ r ∈ (test_get_shard_map.get_tablet_info 0).replicas, r.host ≠ 2) ∧
    test_get_shard_map.get_shard 0 2 = some 3 := by decide

/-- C2 (amended): `get_shard` returns the shard of the host's replica taken
from the tablet's current replica set whenever the host holds one there (the
match is unique because no two replicas of a tablet share a host, and it takes
precedence over the transition); when the host holds no current replica, it
returns the pending replica's shard if the tablet's transition is pending on
that host, and no value otherwise. -/
theorem C2_get_shard_amended (m : tablet_map) (id host : Nat)
    (hnodup : ((m.get_tablet_info id).replicas.map tablet_replica.host).Nodup) :
    (∀ r ∈ (m.get_tablet_info id).replicas, r.host = host →
       m.get_shard id host = some r.shard) ∧
    ((∀ r ∈ (m.get_tablet_info id).replicas, r.host ≠ host) →
       m.get_shard id host =
         match m.get_tablet_transition_info id with
         | some tinfo =>
           if tinfo.pending_replica.host = host then some tinfo.pending_replica.shard
           else none
         | none => none) := by
  constructor
  · intro r hr hh
    unfold tablet_map.get_shard
    rw [find_host_of_nodup hnodup hr hh]
  · intro hnone
    unfold tablet_map.get_shard
    have hfind : (m.get_tablet_info id).replicas.find? (fun x => x.host == host) = none := by
      rw [List.find?_eq_none]
      intro x hx
      simp only [beq_iff_eq]
      exact hnone x hx
    rw [hfind]

theorem C2_get_shard_amended_witness :
    ((test_get_shard_map.get_tablet_info 0).replicas.map tablet_replica.host).Nodup ∧
    ((∀ r ∈ (test_get_shard_map.get_tablet_info 0).replicas, r.host = 3 →
        test_get_shard_map.get_shard 0 3 = some r.shard) ∧
     ((∀ r ∈ (test_get_shard_map.get_tablet_info 0).replicas, r.host ≠ 3) →
        test_get_shard_map.get_shard 0 3 =
          match test_get_shard_map.get_tablet_transition_info 0 with
          | some tinfo =>
            if tinfo.pending_replica.host = 3 then some tinfo.pending_replica.shard
            else none
          | none => none)) :=
  ⟨by decide, C2_get_shard_amended test_get_shard_map 0 3 (by decide)⟩

/-! ## Theorems: resize control loop -/

/-- C3: in the resize control loop, whenever a table's average tablet size
`table_bytes / tablet_count` is at least the configured target tablet size,
the table's resize decision becomes split; the sequence number is freshly
increased whenever the previous decision was not already split, and never
decreases. -/
theorem C3_resize_split_request (target table_bytes tablet_count : Nat)
    (cur : resize_decision) (h : table_bytes / tablet_count ≥ target) :
    (resize_decision_for target table_bytes tablet_count cur).way = .split ∧
    (cur.way ≠ .split →
      (resize_decision_for target table_bytes tablet_count cur).sequence_number
        = cur.sequence_number + 1) ∧
    cur.sequence_number
      ≤ (resize_decision_for target table_bytes tablet_count cur).sequence_number := by
  obtain ⟨way, seq⟩ := cur
  cases way <;> simp [resize_decision_for, if_pos h]

theorem C3_resize_split_request_witness :
    (4 : Nat) / 2 ≥ 1 ∧
    ((resize_decision_for 1 4 2 ⟨.none, 0⟩).way = .split ∧
     ((resize_decision.mk .none 0).way ≠ .split →
       (resize_decision_for 1 4 2 ⟨.none, 0⟩).sequence_number
         = (resize_decision.mk .none 0).sequence_number + 1) ∧
     (resize_decision.mk .none 0).sequence_number
       ≤ (resize_decision_for 1 4 2 ⟨.none, 0⟩).sequence_number) :=
  ⟨by decide, C3_resize_split_request 1 4 2 ⟨.none, 0⟩ (by decide)⟩

theorem length_flatMap_pair (l : List tablet_state) :
    (l.flatMap fun ts => [ts, ts]).length = 2 * l.length := by
  induction l with
  | nil => simp
  | cons x xs ih =>
    simp only [List.flatMap_cons, List.length_append, List.length_cons, ih,
      List.length_nil]
    omega

theorem getD_flatMap_pair (l : List tablet_state) (i : Nat) (h : i < l.length)
    (d : tablet_state) :
    (l.flatMap fun ts => [ts, ts]).getD (2 * i) d = l.getD i d ∧
    (l.flatMap fun ts => [ts, ts]).getD (2 * i + 1) d = l.getD i d := by
  induction l generalizing i with
  | nil => simp at h
  | cons x xs ih =>
    rcases Nat.eq_zero_or_pos i with hi | hi
    · subst hi
      simp [List.flatMap_cons]
    · obtain ⟨j, rfl⟩ : ∃ j, i = j + 1 := ⟨i - 1, by omega⟩
      have h2 : 2 * (j + 1) = 2 * j + 1 + 1 := by omega
      rw [h2]
      simp only [List.flatMap_cons, List.cons_append, List.nil_append,
        List.getD_cons_succ]
      exact ih j (by simpa using h)

/-- C4: if a table's resize decision is split with sequence number `s` and
every replica reports `split_ready_seq_number ≥ s` (the statistics carry the
smallest reported value), one balancing pass finalizes the split: the tablet
count doubles, each old tablet `i` becomes the two tablets `2i` and `2i+1`
inheriting the parent's replica set, and the resize decision resets to none. -/
theorem C4_split_finalization (target : Nat) (stats : table_load_stats)
    (m : tablet_map) (hway : m.resize.way = .split)
    (hready : m.resize.sequence_number ≤ stats.split_ready_seq_number) :
    (balance_resize_step target stats m).tablet_count = 2 * m.tablet_count ∧
    (∀ i, i < m.tablet_count →
      (balance_resize_step target stats m).get_tablet_info (2 * i) = m.get_tablet_info i ∧
      (balance_resize_step target stats m).get_tablet_info (2 * i + 1) = m.get_tablet_info i) ∧
    (balance_resize_step target stats m).resize.way = .none := by
  have hcond : split_ready m stats = true := by
    simp [split_ready, hway, hready]
  have hstep : balance_resize_step target stats m = finalize_split m := by
    unfold balance_resize_step
    rw [hcond]
    simp
  rw [hstep]
  refine ⟨?_, ?_, rfl⟩
  · simp only [finalize_split, tablet_map.tablet_count]
    exact length_flatMap_pair m.tablets
  · intro i hi
    have hdup := getD_flatMap_pair m.tablets i hi {}
    simp only [finalize_split, tablet_map.get_tablet_info]
    exact ⟨by rw [hdup.1], by rw [hdup.2]⟩

theorem C4_split_finalization_witness :
    (tablet_map.mk 0 [{ info := ⟨[⟨1, 0⟩, ⟨2, 1⟩]⟩ }] ⟨.split, 5⟩).resize.way = .split ∧
    (tablet_map.mk 0 [{ info := ⟨[⟨1, 0⟩, ⟨2, 1⟩]⟩ }] ⟨.split, 5⟩).resize.sequence_number
      ≤ (table_load_stats.mk 1000 5).split_ready_seq_number ∧
    ((balance_resize_step 100 (table_load_stats.mk 1000 5)
        (tablet_map.mk 0 [{ info := ⟨[⟨1, 0⟩, ⟨2, 1⟩]⟩ }] ⟨.split, 5⟩)).tablet_count
      = 2 * (tablet_map.mk 0 [{ info := ⟨[⟨1, 0⟩, ⟨2, 1⟩]⟩ }] ⟨.split, 5⟩).tablet_count ∧
     (∀ i, i < (tablet_map.mk 0 [{ info := ⟨[⟨1, 0⟩, ⟨2, 1⟩]⟩ }] ⟨.split, 5⟩).tablet_count →
       (balance_resize_step 100 (table_load_stats.mk 1000 5)
          (tablet_map.mk 0 [{ info := ⟨[⟨1, 0⟩, ⟨2, 1⟩]⟩ }] ⟨.split, 5⟩)).get_tablet_info (2 * i)
         = (tablet_map.mk 0 [{ info := ⟨[⟨1, 0⟩, ⟨2, 1⟩]⟩ }] ⟨.split, 5⟩).get_tablet_info i ∧
       (balance_resize_step 100 (table_load_stats.mk 1000 5)
          (tablet_map.mk 0 [{ info := ⟨[⟨1, 0⟩, ⟨2, 1⟩]⟩ }] ⟨.split, 5⟩)).get_tablet_info (2 * i + 1)
         = (tablet_map.mk 0 [{ info := ⟨[⟨1, 0⟩, ⟨2, 1⟩]⟩ }] ⟨.split, 5⟩).get_tablet_info i) ∧
     (balance_resize_step 100 (table_load_stats.mk 1000 5)
        (tablet_map.mk 0 [{ info := ⟨[⟨1, 0⟩, ⟨2, 1⟩]⟩ }] ⟨.split, 5⟩)).resize.way = .none) :=
  ⟨by decide, by decide,
    C4_split_finalization 100 (table_load_stats.mk 1000 5)
      (tablet_map.mk 0 [{ info := ⟨[⟨1, 0⟩, ⟨2, 1⟩]⟩ }] ⟨.split, 5⟩)
      (by decide) (by decide)⟩

/-! ## Theorems: the drain slice of the balancer -/

theorem find_assoc_of_nodup {β : Type} {l : List (Nat × β)} {k : Nat} {v : β}
    (hnd : (l.map Prod.fst).Nodup) (hm : (k, v) ∈ l) :
    List.find? (fun e => e.1 == k) l = some (k, v) := by
  induction l with
  | nil => cases hm
  | cons x xs ih =>
    simp only [List.map_cons, List.nodup_cons] at hnd
    rcases List.mem_cons.mp hm with hx | hx
    · subst hx
      exact List.find?_cons_of_pos _ (by simp)
    · have hxk : ¬ ((fun e : Nat × β => e.1 == k) x = true) := by
        simp only [beq_iff_eq]
        intro he
        apply hnd.1
        exact List.mem_map.mpr ⟨(k, v), hx, by rw [he]⟩
      have hstep : List.find? (fun e : Nat × β => e.1 == k) (x :: xs)
          = List.find? (fun e : Nat × β => e.1 == k) xs :=
        List.find?_cons_of_neg _ hxk
      rw [hstep]
      exact ih hnd.2 hx

theorem topology_find_of_mem {topo : topology} {k : Nat} {v : node_info}
    (hnd : (topo.map Prod.fst).Nodup) (hm : (k, v) ∈ topo) :
    topology.find topo k = some v := by
  unfold topology.find
  rw [find_assoc_of_nodup hnd hm]
  rfl

theorem drain_candidates_mem {topo : topology} {skip : List Nat}
    {kept : List tablet_replica} {dc rf c : Nat}
    (hnd : (topo.map Prod.fst).Nodup)
    (hc : c ∈ drain_candidates topo skip kept dc rf) :
    c ∉ skip ∧ ∃ ni, topology.find topo c = some ni ∧ ni.state = .normal := by
  unfold drain_candidates at hc
  obtain ⟨hmem, hp⟩ := List.mem_filter.mp hc
  simp only [Bool.and_eq_true, Bool.not_eq_true'] at hp
  constructor
  · have h1 := hp.1.1
    simp at h1
    exact h1
  · unfold normal_hosts_in_dc at hmem
    obtain ⟨e, he, hfst⟩ := List.mem_map.mp hmem
    obtain ⟨hetopo, hq⟩ := List.mem_filter.mp he
    simp only [Bool.and_eq_true, beq_iff_eq] at hq
    obtain ⟨k, ni⟩ := e
    simp only at hfst hq
    subst hfst
    exact ⟨ni, topology_find_of_mem hnd hetopo, hq.1⟩

theorem drain_replicas_ok {topo : topology} {skip : List Nat} {rf : Nat}
    (hnd : (topo.map Prod.fst).Nodup) :
    ∀ (todo done : List tablet_replica) (reps : List tablet_replica)
      (pairs : List (tablet_replica × tablet_replica)),
      drain_replicas topo skip rf done todo = .ok (reps, pairs) →
      (∀ r ∈ done, replica_not_draining topo r) →
      reps.length = done.length + todo.length ∧
      (∀ r ∈ reps, replica_not_draining topo r) ∧
      (∀ pr ∈ pairs, migration_dst_legal topo skip pr.2) := by
  intro todo
  induction todo with
  | nil =>
    intro done reps pairs hok hdone
    simp only [drain_replicas] at hok
    cases hok
    refine ⟨by simp, hdone, ?_⟩
    intro pr hpr
    cases hpr
  | cons r todo ih =>
    intro done reps pairs hok hdone
    simp only [drain_replicas] at hok
    cases hfind : topology.find topo r.host with
    | none =>
      simp only [hfind] at hok
      cases hok
    | some ni =>
      simp only [hfind] at hok
      by_cases hdec : (ni.state == node_state.being_decommissioned) = true
      · rw [if_pos hdec] at hok
        cases hcand : drain_candidates topo skip (done ++ todo) ni.dc rf with
        | nil =>
          simp only [hcand] at hok
          cases hok
        | cons c rest =>
          simp only [hcand] at hok
          cases hrec : drain_replicas topo skip rf (done ++ [⟨c, 0⟩]) todo with
          | error e =>
            simp only [hrec] at hok
            cases hok
          | ok p =>
            obtain ⟨reps0, pairs0⟩ := p
            simp only [hrec] at hok
            obtain ⟨hr1, hr2⟩ := Prod.mk.injEq .. ▸ Except.ok.inj hok
            subst hr1
            subst hr2
            have hcmem : c ∈ drain_candidates topo skip (done ++ todo) ni.dc rf := by
              rw [hcand]; exact List.mem_cons_self c rest
            obtain ⟨hcskip, ni', hcfind, hcnormal⟩ := drain_candidates_mem hnd hcmem
            have hgoodc : replica_not_draining topo (⟨c, 0⟩ : tablet_replica) :=
              ⟨ni', hcfind, by rw [hcnormal]; intro h; cases h⟩
            have hdone' : ∀ x ∈ done ++ [(⟨c, 0⟩ : tablet_replica)],
                replica_not_draining topo x := by
              intro x hx
              rcases List.mem_append.mp hx with hx | hx
              · exact hdone x hx
              · rcases List.mem_singleton.mp hx with rfl
                exact hgoodc
            obtain ⟨hlen, hgood, hpairs⟩ := ih (done ++ [⟨c, 0⟩]) reps0 pairs0 hrec hdone'
            refine ⟨?_, hgood, ?_⟩
            · simp only [List.length_append, List.length_singleton] at hlen
              simp only [List.length_cons]
              omega
            · intro pr hpr
              rcases List.mem_cons.mp hpr with hpr | hpr
              · subst hpr
                exact ⟨hcskip, ni', hcfind, hcnormal⟩
              · exact hpairs pr hpr
      · rw [if_neg hdec] at hok
        have hgoodr : replica_not_draining topo r := by
          refine ⟨ni, hfind, ?_⟩
          simp only [beq_iff_eq] at hdec
          exact hdec
        have hdone' : ∀ x ∈ done ++ [r], replica_not_draining topo x := by
          intro x hx
          rcases List.mem_append.mp hx with hx | hx
          · exact hdone x hx
          · rcases List.mem_singleton.mp hx with rfl
            exact hgoodr
        obtain ⟨hlen, hgood, hpairs⟩ := ih (done ++ [r]) reps pairs hok hdone'
        refine ⟨?_, hgood, hpairs⟩
        simp only [List.length_append, List.length_singleton] at hlen
        simp only [List.length_cons]
        omega

theorem drain_tablet_list_ok {topo : topology} {skip : List Nat} {tid : Nat}
    (hnd : (topo.map Prod.fst).Nodup) :
    ∀ (l : List tablet_state) (idx : Nat) (tablets' : List tablet_state)
      (migs : List tablet_migration_info),
      drain_tablet_list topo skip tid idx l = .ok (tablets', migs) →
      tablets'.map (fun ts => ts.info.replicas.length)
        = l.map (fun ts => ts.info.replicas.length) ∧
      (∀ ts ∈ tablets', ∀ r ∈ ts.info.replicas, replica_not_draining topo r) ∧
      (∀ mig ∈ migs, migration_dst_legal topo skip mig.dst) := by
  intro l
  induction l with
  | nil =>
    intro idx tablets' migs hok
    simp only [drain_tablet_list] at hok
    cases hok
    refine ⟨rfl, ?_, ?_⟩
    · intro ts hts
      cases hts
    · intro mig hmig
      cases hmig
  | cons ts rest ih =>
    intro idx tablets' migs hok
    simp only [drain_tablet_list] at hok
    cases hdr : drain_replicas topo skip ts.info.replicas.length [] ts.info.replicas with
    | error e =>
      simp only [hdr] at hok
      cases hok
    | ok p =>
      obtain ⟨reps, pairs⟩ := p
      simp only [hdr] at hok
      cases hrest : drain_tablet_list topo skip tid (idx + 1) rest with
      | error e =>
        simp only [hrest] at hok
        cases hok
      | ok q =>
        obtain ⟨rest', migs'⟩ := q
        simp only [hrest] at hok
        obtain ⟨hr1, hr2⟩ := Prod.mk.injEq .. ▸ Except.ok.inj hok
        subst hr1
        subst hr2
        obtain ⟨hlen, hgood, hpairs⟩ :=
          drain_replicas_ok hnd ts.info.replicas [] reps pairs hdr (by intro x hx; cases hx)
        obtain ⟨hlen', hgood', hmigs'⟩ := ih (idx + 1) rest' migs' hrest
        refine ⟨?_, ?_, ?_⟩
        · simp only [List.map_cons, hlen', List.cons.injEq]
          exact ⟨by simpa using hlen, trivial⟩
        · intro t ht r hr
          rcases List.mem_cons.mp ht with ht | ht
          · subst ht
            exact hgood r hr
          · exact hgood' t ht r hr
        · intro mig hmig
          rcases List.mem_append.mp hmig with hmig | hmig
          · obtain ⟨pr, hpr, hmk⟩ := List.mem_map.mp hmig
            have := hpairs pr hpr
            rw [← hmk]
            exact this
          · exact hmigs' mig hmig

theorem drain_tablet_list_error {topo : topology} {skip : List Nat} {tid : Nat} :
    ∀ (l : List tablet_state) (idx i : Nat) (e : String), i < l.length →
      drain_replicas topo skip (l.getD i {}).info.replicas.length []
        (l.getD i {}).info.replicas = .error e →
      ∃ e', drain_tablet_list topo skip tid idx l = .error e' := by
  intro l
  induction l with
  | nil =>
    intro idx i e hi
    simp at hi
  | cons ts rest ih =>
    intro idx i e hi herr
    rcases Nat.eq_zero_or_pos i with hzero | hpos
    · subst hzero
      simp only [List.getD_cons_zero] at herr
      refine ⟨e, ?_⟩
      simp only [drain_tablet_list, herr]
    · obtain ⟨j, rfl⟩ : ∃ j, i = j + 1 := ⟨i - 1, by omega⟩
      simp only [List.getD_cons_succ] at herr
      cases hdr : drain_replicas topo skip ts.info.replicas.length [] ts.info.replicas with
      | error e0 =>
        refine ⟨e0, ?_⟩
        simp only [drain_tablet_list, hdr]
      | ok p =>
        obtain ⟨reps, pairs⟩ := p
        obtain ⟨e', he'⟩ := ih (idx + 1) j e (by simpa using hi) herr
        refine ⟨e', ?_⟩
        simp only [drain_tablet_list, hdr, he']

theorem balance_tablets_ok {topo : topology} {skip : List Nat}
    (hnd : (topo.map Prod.fst).Nodup) :
    ∀ (tables tables' : List (Nat × tablet_map)) (migs : List tablet_migration_info),
      balance_tablets topo skip tables = .ok (tables', migs) →
      tables'.map Prod.fst = tables.map Prod.fst ∧
      tables'.map (fun e => e.2.tablets.map (fun ts => ts.info.replicas.length))
        = tables.map (fun e => e.2.tablets.map (fun ts => ts.info.replicas.length)) ∧
      (∀ e ∈ tables', ∀ ts ∈ e.2.tablets, ∀ r ∈ ts.info.replicas,
        replica_not_draining topo r) ∧
      (∀ mig ∈ migs, migration_dst_legal topo skip mig.dst) := by
  intro tables
  induction tables with
  | nil =>
    intro tables' migs hok
    simp only [balance_tablets] at hok
    cases hok
    refine ⟨rfl, rfl, ?_, ?_⟩
    · intro e he
      cases he
    · intro mig hmig
      cases hmig
  | cons entry rest ih =>
    obtain ⟨tid, m⟩ := entry
    intro tables' migs hok
    simp only [balance_tablets] at hok
    cases hdr : drain_tablet_list topo skip tid 0 m.tablets with
    | error e =>
      simp only [hdr] at hok
      cases hok
    | ok p =>
      obtain ⟨tablets', migs0⟩ := p
      simp only [hdr] at hok
      cases hrest : balance_tablets topo skip rest with
      | error e =>
        simp only [hrest] at hok
        cases hok
      | ok q =>
        obtain ⟨rest', migs1⟩ := q
        simp only [hrest] at hok
        obtain ⟨hr1, hr2⟩ := Prod.mk.injEq .. ▸ Except.ok.inj hok
        subst hr1
        subst hr2
        obtain ⟨hlen, hgood, hmigs0⟩ := drain_tablet_list_ok hnd m.tablets 0 tablets' migs0 hdr
        obtain ⟨hfst, hlens, hgood', hmigs1⟩ := ih rest' migs1 hrest
        refine ⟨?_, ?_, ?_, ?_⟩
        · simp only [List.map_cons, hfst]
        · simp only [List.map_cons, hlens, List.cons.injEq]
          exact ⟨hlen, trivial⟩
        · intro e he ts hts r hr
          rcases List.mem_cons.mp he with he | he
          · subst he
            exact hgood ts hts r hr
          · exact hgood' e he ts hts r hr
        · intro mig hmig
          rcases List.mem_append.mp hmig with hmig | hmig
          · exact hmigs0 mig hmig
          · exact hmigs1 mig hmig

theorem balance_tablets_error {topo : topology} {skip : List Nat} :
    ∀ (tables : List (Nat × tablet_map)) (tid : Nat) (m : tablet_map),
      (tid, m) ∈ tables →
      (∃ e, drain_tablet_list topo skip tid 0 m.tablets = .error e) →
      ∃ e', balance_tablets topo skip tables = .error e' := by
  intro tables
  induction tables with
  | nil =>
    intro tid m hmem
    cases hmem
  | cons entry rest ih =>
    obtain ⟨tid0, m0⟩ := entry
    intro tid m hmem hfail
    cases hdr : drain_tablet_list topo skip tid0 0 m0.tablets with
    | error e =>
      refine ⟨e, ?_⟩
      simp only [balance_tablets, hdr]
    | ok p =>
      obtain ⟨tablets', migs0⟩ := p
      rcases List.mem_cons.mp hmem with hhead | htail
      · obtain ⟨he1, he2⟩ := Prod.mk.injEq .. ▸ hhead
        subst he1
        subst he2
        obtain ⟨e, he⟩ := hfail
        rw [hdr] at he
        cases he
      · obtain ⟨e', he'⟩ := ih tid m htail hfail
        refine ⟨e', ?_⟩
        simp only [balance_tablets, hdr, he']

/-- C7: whenever some tablet's replica cannot legally be re-placed under the
replication-factor and rack-uniqueness constraints (the drain of that tablet
fails), `balance_tablets` fails with an error and emits no migrations — the
result is never a (partial) plan. -/
theorem C7_infeasible_placement_fails (topo : topology) (skip : List Nat)
    (tables : List (Nat × tablet_map)) (tid : Nat) (m : tablet_map)
    (hmem : (tid, m) ∈ tables) (i : Nat) (e : String)
    (hi : i < m.tablets.length)
    (herr : drain_replicas topo skip (m.tablets.getD i {}).info.replicas.length []
        (m.tablets.getD i {}).info.replicas = .error e) :
    (∃ e', balance_tablets topo skip tables = .error e') ∧
    ∀ res, balance_tablets topo skip tables ≠ .ok res := by
  have hfail := @drain_tablet_list_error topo skip tid m.tablets 0 i e hi herr
  have herr' := balance_tablets_error tables tid m hmem hfail
  refine ⟨herr', ?_⟩
  intro res hres
  obtain ⟨e', he'⟩ := herr'
  rw [he'] at hres
  cases hres

theorem C7_infeasible_placement_fails_witness :
    ((1 : Nat), rack_fail_map) ∈ tables_rack_fail ∧
    (0 : Nat) < rack_fail_map.tablets.length ∧
    drain_replicas topo_rack_fail []
        ((rack_fail_map.tablets.getD 0 {}).info.replicas.length) []
        ((rack_fail_map.tablets.getD 0 {}).info.replicas)
      = .error "not enough nodes or racks to satisfy replication constraints" ∧
    ((∃ e', balance_tablets topo_rack_fail [] tables_rack_fail = .error e') ∧
      ∀ res, balance_tablets topo_rack_fail [] tables_rack_fail ≠ .ok res) :=
  ⟨by decide, by decide, by decide,
    C7_infeasible_placement_fails topo_rack_fail [] tables_rack_fail
      1 rack_fail_map (by decide) 0
      "not enough nodes or racks to satisfy replication constraints"
      (by decide) (by decide)⟩

/-- C8: whenever the drain pass of `balance_tablets` succeeds, the resulting
metadata holds no replica on any `being_decommissioned` host, every emitted
migration's destination is a `normal` host outside the skip-list (so a
draining host is never assigned a new replica at any step), and every table
keeps its table id and each tablet its replica count (the replication
factor); in the 3-host RF=2 scenario of `test_decommission_rf_met`, hosts 1
and 2 end with average shard load 2 and the draining host 3 with load 0. -/
theorem C8_decommission_drain (topo : topology) (skip : List Nat)
    (tables tables' : List (Nat × tablet_map)) (migs : List tablet_migration_info)
    (hnd : (topo.map Prod.fst).Nodup)
    (hok : balance_tablets topo skip tables = .ok (tables', migs)) :
    (∀ e ∈ tables', ∀ ts ∈ e.2.tablets, ∀ r ∈ ts.info.replicas,
      replica_not_draining topo r) ∧
    (∀ mig ∈ migs, migration_dst_legal topo skip mig.dst) ∧
    tables'.map Prod.fst = tables.map Prod.fst ∧
    tables'.map (fun e => e.2.tablets.map (fun ts => ts.info.replicas.length))
      = tables.map (fun e => e.2.tablets.map (fun ts => ts.info.replicas.length)) ∧
    (balance_tablets topo_rf_met [] tables_rf_met
       = .ok (balanced_rf_met_tables, balanced_rf_met_migs) ∧
     avg_shard_load topo_rf_met balanced_rf_met_tables 1 = 2 ∧
     avg_shard_load topo_rf_met balanced_rf_met_tables 2 = 2 ∧
     avg_shard_load topo_rf_met balanced_rf_met_tables 3 = 0 ∧
     tables_load balanced_rf_met_tables 3 = 0) := by
  obtain ⟨hfst, hlens, hgood, hmigs⟩ := balance_tablets_ok hnd tables tables' migs hok
  exact ⟨hgood, hmigs, hfst, hlens, by decide, by decide, by decide, by decide, by decide⟩

theorem C8_decommission_drain_witness :
    ((topo_rf_met.map Prod.fst).Nodup ∧
     balance_tablets topo_rf_met [] tables_rf_met
       = .ok (balanced_rf_met_tables, balanced_rf_met_migs)) ∧
    ((∀ e ∈ balanced_rf_met_tables, ∀ ts ∈ e.2.tablets, ∀ r ∈ ts.info.replicas,
       replica_not_draining topo_rf_met r) ∧
     (∀ mig ∈ balanced_rf_met_migs, migration_dst_legal topo_rf_met [] mig.dst) ∧
     balanced_rf_met_tables.map Prod.fst = tables_rf_met.map Prod.fst ∧
     balanced_rf_met_tables.map (fun e => e.2.tablets.map (fun ts => ts.info.replicas.length))
       = tables_rf_met.map (fun e => e.2.tablets.map (fun ts => ts.info.replicas.length)) ∧
     (balance_tablets topo_rf_met [] tables_rf_met
        = .ok (balanced_rf_met_tables, balanced_rf_met_migs) ∧
      avg_shard_load topo_rf_met balanced_rf_met_tables 1 = 2 ∧
      avg_shard_load topo_rf_met balanced_rf_met_tables 2 = 2 ∧
      avg_shard_load topo_rf_met balanced_rf_met_tables 3 = 0 ∧
      tables_load balanced_rf_met_tables 3 = 0)) :=
  ⟨⟨by decide, by decide⟩,
    C8_decommission_drain topo_rf_met [] tables_rf_met
      balanced_rf_met_tables balanced_rf_met_migs (by decide) (by decide)⟩

/-! ## Theorems: RF reallocator -/

theorem normal_hosts_nodup {topo : topology} {dc : Nat}
    (hnd : (topo.map Prod.fst).Nodup) : (normal_hosts_in_dc topo dc).Nodup := by
  unfold normal_hosts_in_dc
  exact hnd.sublist ((List.filter_sublist topo).map Prod.fst)

theorem host_dc_of_normal_mem {topo : topology} {dc h : Nat}
    (hnd : (topo.map Prod.fst).Nodup) (hm : h ∈ normal_hosts_in_dc topo dc) :
    host_dc topo h = some dc := by
  unfold normal_hosts_in_dc at hm
  obtain ⟨e, he, hfst⟩ := List.mem_map.mp hm
  obtain ⟨hetopo, hq⟩ := List.mem_filter.mp he
  simp only [Bool.and_eq_true, beq_iff_eq] at hq
  obtain ⟨k, ni⟩ := e
  simp only at hfst hq
  subst hfst
  unfold host_dc
  rw [topology_find_of_mem hnd hetopo]
  simp [hq.2]

theorem filter_other_dc_adjust {topo : topology} {dc rf d : Nat}
    (hnd : (topo.map Prod.fst).Nodup) (hne : d ≠ dc) (reps : List tablet_replica) :
    (adjust_dc_replicas topo dc rf reps).filter
        (fun r => host_dc topo r.host == some d)
      = reps.filter (fun r => host_dc topo r.host == some d) := by
  have hout : (reps.filter (fun r => !(host_dc topo r.host == some dc))).filter
      (fun r => host_dc topo r.host == some d)
      = reps.filter (fun r => host_dc topo r.host == some d) := by
    rw [List.filter_filter]
    apply List.filter_congr
    intro r _
    cases hcase : (host_dc topo r.host == some d) with
    | true =>
      simp only [beq_iff_eq] at hcase
      simp [hcase, hne]
    | false => simp
  have hin : ∀ l : List tablet_replica,
      (∀ a ∈ l, host_dc topo a.host = some dc) →
      l.filter (fun r => host_dc topo r.host == some d) = [] := by
    intro l hl
    rw [List.filter_eq_nil_iff]
    intro a ha
    simp only [beq_iff_eq, hl a ha]
    intro hc
    have hdc : dc = d := by injection hc
    exact hne hdc.symm
  have htake : (List.take rf
      (reps.filter (fun r => host_dc topo r.host == some dc))).filter
        (fun r => host_dc topo r.host == some d) = [] := by
    apply hin
    intro a ha
    have ha' := (List.take_sublist _ _).subset ha
    have hq := (List.mem_filter.mp ha').2
    simpa using hq
  have hindc : (reps.filter (fun r => host_dc topo r.host == some dc)).filter
      (fun r => host_dc topo r.host == some d) = [] := by
    apply hin
    intro a ha
    have hq := (List.mem_filter.mp ha).2
    simpa using hq
  have hext : ∀ n : Nat, ((List.take n
      ((normal_hosts_in_dc topo dc).filter
        (fun h => !(((reps.filter (fun r => host_dc topo r.host == some dc)).map
          tablet_replica.host).contains h)))).map
        (fun h => (⟨h, 0⟩ : tablet_replica))).filter
          (fun r => host_dc topo r.host == some d) = [] := by
    intro n
    apply hin
    intro a ha
    obtain ⟨h, hh, rfl⟩ := List.mem_map.mp ha
    have hh' : h ∈ normal_hosts_in_dc topo dc :=
      (List.mem_filter.mp ((List.take_sublist _ _).subset hh)).1
    exact host_dc_of_normal_mem hnd hh'
  simp only [adjust_dc_replicas]
  split
  · rw [List.filter_append, htake, List.append_nil, hout]
  · rw [List.filter_append, List.filter_append, hindc, hext, List.append_nil,
      List.append_nil, hout]

theorem adjust_hosts_nodup {topo : topology} {dc rf : Nat}
    (hnd : (topo.map Prod.fst).Nodup) {reps : List tablet_replica}
    (hreps : (reps.map tablet_replica.host).Nodup) :
    ((adjust_dc_replicas topo dc rf reps).map tablet_replica.host).Nodup := by
  have hperm : List.Perm
      (reps.filter (fun r => host_dc topo r.host == some dc)
        ++ reps.filter (fun r => !(host_dc topo r.host == some dc)))
      reps := List.filter_append_perm _ reps
  have hpermh := hperm.map tablet_replica.host
  have hnodio : ((reps.filter (fun r => host_dc topo r.host == some dc)).map
        tablet_replica.host
      ++ (reps.filter (fun r => !(host_dc topo r.host == some dc))).map
        tablet_replica.host).Nodup := by
    rw [← List.map_append]
    exact (hpermh.nodup_iff).mpr hreps
  rw [List.nodup_append] at hnodio
  obtain ⟨hinnd, houtnd, hdisj⟩ := hnodio
  have hcomp : tablet_replica.host ∘ (fun h : Nat => (⟨h, 0⟩ : tablet_replica)) = id := rfl
  have hextnd : ∀ n : Nat, ((List.take n
      ((normal_hosts_in_dc topo dc).filter
        (fun h => !(((reps.filter (fun r => host_dc topo r.host == some dc)).map
          tablet_replica.host).contains h)))).map
        (fun h : Nat => (⟨h, 0⟩ : tablet_replica))).map tablet_replica.host
      = List.take n
        ((normal_hosts_in_dc topo dc).filter
          (fun h => !(((reps.filter (fun r => host_dc topo r.host == some dc)).map
            tablet_replica.host).contains h))) := by
    intro n
    rw [List.map_map, hcomp, List.map_id]
  simp only [adjust_dc_replicas]
  split
  · rw [List.map_append, List.nodup_append]
    refine ⟨houtnd, ?_, ?_⟩
    · exact hinnd.sublist ((List.take_sublist _ _).map _)
    · intro x hx hx'
      have hx'' : x ∈ (reps.filter
          (fun r => host_dc topo r.host == some dc)).map tablet_replica.host := by
        obtain ⟨a, ha, rfl⟩ := List.mem_map.mp hx'
        exact List.mem_map.mpr ⟨a, (List.take_sublist _ _).subset ha, rfl⟩
      exact hdisj hx'' hx
  · rw [List.map_append, List.map_append, List.nodup_append]
    refine ⟨?_, ?_, ?_⟩
    · rw [List.nodup_append]
      exact ⟨houtnd, hinnd, fun x hx hx' => hdisj hx' hx⟩
    · rw [hextnd]
      exact (((normal_hosts_nodup hnd).filter _).sublist (List.take_sublist _ _))
    · intro x hx hx'
      rw [hextnd] at hx'
      have hfil := (List.take_sublist _ _).subset hx'
      rcases List.mem_append.mp hx with hx | hx
      · obtain ⟨r, hr, rfl⟩ := List.mem_map.mp hx
        have hrout := (List.mem_filter.mp hr).2
        simp only [Bool.not_eq_true'] at hrout
        have hnh : r.host ∈ normal_hosts_in_dc topo dc := (List.mem_filter.mp hfil).1
        have hdceq := host_dc_of_normal_mem hnd hnh
        rw [hdceq] at hrout
        simp at hrout
      · have hq := (List.mem_filter.mp hfil).2
        simp only [Bool.not_eq_true'] at hq
        have hel := List.elem_eq_true_of_mem hx
        rw [List.contains, hel] at hq
        cases hq

theorem adjust_dc_count {topo : topology} {dc rf : Nat}
    (hnd : (topo.map Prod.fst).Nodup) (reps : List tablet_replica)
    (hlive : rf ≤ (normal_hosts_in_dc topo dc).length) :
    dc_replica_count topo dc (adjust_dc_replicas topo dc rf reps) = rf := by
  unfold dc_replica_count
  have hfilout : (reps.filter (fun r => !(host_dc topo r.host == some dc))).filter
      (fun r => host_dc topo r.host == some dc) = [] := by
    rw [List.filter_eq_nil_iff]
    intro a ha
    have hq := (List.mem_filter.mp ha).2
    simp only [Bool.not_eq_true'] at hq
    simp [hq]
  have hmemin : ∀ a ∈ reps.filter (fun r => host_dc topo r.host == some dc),
      (host_dc topo a.host == some dc) = true :=
    fun a ha => (List.mem_filter.mp ha).2
  simp only [adjust_dc_replicas]
  split
  · rename_i hc
    rw [List.filter_append, hfilout, List.nil_append]
    have htk : (List.take rf
        (reps.filter (fun r => host_dc topo r.host == some dc))).filter
          (fun r => host_dc topo r.host == some dc)
        = List.take rf (reps.filter (fun r => host_dc topo r.host == some dc)) := by
      rw [List.filter_eq_self]
      intro a ha
      exact hmemin a ((List.take_sublist _ _).subset ha)
    rw [htk, List.length_take]
    omega
  · rename_i hc
    rw [List.filter_append, List.filter_append, hfilout, List.nil_append]
    have h1 : (reps.filter (fun r => host_dc topo r.host == some dc)).filter
        (fun r => host_dc topo r.host == some dc)
        = reps.filter (fun r => host_dc topo r.host == some dc) :=
      List.filter_eq_self.mpr hmemin
    have h2 : ((List.take
        (rf - (reps.filter (fun r => host_dc topo r.host == some dc)).length)
        ((normal_hosts_in_dc topo dc).filter
          (fun h => !(((reps.filter (fun r => host_dc topo r.host == some dc)).map
            tablet_replica.host).contains h)))).map
          (fun h : Nat => (⟨h, 0⟩ : tablet_replica))).filter
            (fun r => host_dc topo r.host == some dc)
        = (List.take
            (rf - (reps.filter (fun r => host_dc topo r.host == some dc)).length)
            ((normal_hosts_in_dc topo dc).filter
              (fun h => !(((reps.filter (fun r => host_dc topo r.host == some dc)).map
                tablet_replica.host).contains h)))).map
              (fun h : Nat => (⟨h, 0⟩ : tablet_replica)) := by
      rw [List.filter_eq_self]
      intro a ha
      obtain ⟨h, hh, rfl⟩ := List.mem_map.mp ha
      have hh' : h ∈ normal_hosts_in_dc topo dc :=
        (List.mem_filter.mp ((List.take_sublist _ _).subset hh)).1
      simp [host_dc_of_normal_mem hnd hh']
    rw [h1, h2, List.length_append, List.length_map, List.length_take]
    have hperm2 : List.Perm
        ((normal_hosts_in_dc topo dc).filter
          (fun h => ((reps.filter (fun r => host_dc topo r.host == some dc)).map
            tablet_replica.host).contains h)
          ++ (normal_hosts_in_dc topo dc).filter
            (fun h => !(((reps.filter (fun r => host_dc topo r.host == some dc)).map
              tablet_replica.host).contains h)))
        (normal_hosts_in_dc topo dc) := List.filter_append_perm _ _
    have hlen2 := hperm2.length_eq
    rw [List.length_append] at hlen2
    have hsub : ((normal_hosts_in_dc topo dc).filter
        (fun h => ((reps.filter (fun r => host_dc topo r.host == some dc)).map
          tablet_replica.host).contains h)).length
        ≤ ((reps.filter (fun r => host_dc topo r.host == some dc)).map
          tablet_replica.host).length := by
      apply List.Subperm.length_le
      apply List.subperm_of_subset
      · exact (normal_hosts_nodup hnd).filter _
      · intro h hh
        exact List.mem_of_elem_eq_true ((List.mem_filter.mp hh).2)
    rw [List.length_map] at hsub
    have hmin : rf - (reps.filter (fun r => host_dc topo r.host == some dc)).length
        ≤ ((normal_hosts_in_dc topo dc).filter
          (fun h => !(((reps.filter (fun r => host_dc topo r.host == some dc)).map
            tablet_replica.host).contains h))).length := by
      omega
    rw [Nat.min_eq_left hmin]
    omega

theorem step_status {topo : topology} {dc rf : Nat} (tablets : List tablet_state) :
    (reallocate_for_dc topo dc rf tablets).2
      = if (normal_hosts_in_dc topo dc).length < rf
        then tablet_reallocation_status.not_enough_nodes
        else tablet_reallocation_status.success := by
  unfold reallocate_for_dc
  split <;> simp_all

theorem step_id_of_not_enough {topo : topology} {dc rf : Nat}
    (tablets : List tablet_state)
    (hl : (normal_hosts_in_dc topo dc).length < rf) :
    (reallocate_for_dc topo dc rf tablets).1 = tablets := by
  unfold reallocate_for_dc
  rw [if_pos hl]

theorem step_other_dc {topo : topology} {dc rf d : Nat}
    (hnd : (topo.map Prod.fst).Nodup) (hne : d ≠ dc) (tablets : List tablet_state) :
    (reallocate_for_dc topo dc rf tablets).1.map
        (fun ts => dc_replica_count topo d ts.info.replicas)
      = tablets.map (fun ts => dc_replica_count topo d ts.info.replicas) := by
  unfold reallocate_for_dc
  split
  · rfl
  · rw [List.map_map]
    apply List.map_congr_left
    intro ts _
    simp only [Function.comp]
    unfold dc_replica_count
    rw [filter_other_dc_adjust hnd hne]

theorem step_nodup {topo : topology} {dc rf : Nat}
    (hnd : (topo.map Prod.fst).Nodup) (tablets : List tablet_state)
    (hinv : ∀ ts ∈ tablets, (ts.info.replicas.map tablet_replica.host).Nodup) :
    ∀ ts ∈ (reallocate_for_dc topo dc rf tablets).1,
      (ts.info.replicas.map tablet_replica.host).Nodup := by
  unfold reallocate_for_dc
  split
  · exact hinv
  · intro ts hts
    obtain ⟨ts0, hts0, rfl⟩ := List.mem_map.mp hts
    exact adjust_hosts_nodup hnd (hinv ts0 hts0)

theorem step_success_count {topo : topology} {dc rf : Nat}
    (hnd : (topo.map Prod.fst).Nodup) (tablets : List tablet_state)
    (hl : ¬ (normal_hosts_in_dc topo dc).length < rf) :
    ∀ ts ∈ (reallocate_for_dc topo dc rf tablets).1,
      dc_replica_count topo dc ts.info.replicas = rf := by
  unfold reallocate_for_dc
  rw [if_neg hl]
  intro ts hts
  obtain ⟨ts0, _, rfl⟩ := List.mem_map.mp hts
  exact adjust_dc_count hnd _ (Nat.le_of_not_lt hl)

theorem realloc_other_dc {topo : topology}
    (hnd : (topo.map Prod.fst).Nodup) :
    ∀ (new_rf : List (Nat × Nat)) (tablets : List tablet_state) (d : Nat),
      d ∉ new_rf.map Prod.fst →
      (reallocate_tablets_for_new_rf topo tablets new_rf).1.map
          (fun ts => dc_replica_count topo d ts.info.replicas)
        = tablets.map (fun ts => dc_replica_count topo d ts.info.replicas) := by
  intro new_rf
  induction new_rf with
  | nil => intro tablets d _; rfl
  | cons e rest ih =>
    obtain ⟨dc, rf⟩ := e
    intro tablets d hd
    simp only [List.map_cons, List.mem_cons, not_or] at hd
    simp only [reallocate_tablets_for_new_rf]
    rw [ih (reallocate_for_dc topo dc rf tablets).1 d hd.2]
    exact step_other_dc hnd hd.1 tablets

theorem realloc_nodup {topo : topology}
    (hnd : (topo.map Prod.fst).Nodup) :
    ∀ (new_rf : List (Nat × Nat)) (tablets : List tablet_state),
      (∀ ts ∈ tablets, (ts.info.replicas.map tablet_replica.host).Nodup) →
      ∀ ts ∈ (reallocate_tablets_for_new_rf topo tablets new_rf).1,
        (ts.info.replicas.map tablet_replica.host).Nodup := by
  intro new_rf
  induction new_rf with
  | nil => intro tablets hinv; exact hinv
  | cons e rest ih =>
    obtain ⟨dc, rf⟩ := e
    intro tablets hinv
    simp only [reallocate_tablets_for_new_rf]
    exact ih (reallocate_for_dc topo dc rf tablets).1 (step_nodup hnd tablets hinv)

/-- C9: `reallocate_tablets_for_new_rf` returns a per-DC status: when a DC
has at least as many live hosts as the target RF the status is success and
every tablet ends with exactly new-RF distinct-host replicas in that DC;
when the DC has fewer live hosts than the target RF the status is
`not_enough_nodes` and that DC's replicas are left untouched — each tablet
keeps its previous per-DC replica count — while the other, successful DCs
still apply. -/
theorem C9_reallocate_tablets_for_new_rf (topo : topology)
    (hnd : (topo.map Prod.fst).Nodup) :
    ∀ (new_rf : List (Nat × Nat)) (tablets : List tablet_state),
      (new_rf.map Prod.fst).Nodup →
      (∀ ts ∈ tablets, (ts.info.replicas.map tablet_replica.host).Nodup) →
      ∀ dc rf, (dc, rf) ∈ new_rf →
        ((dc, if (normal_hosts_in_dc topo dc).length < rf
            then tablet_reallocation_status.not_enough_nodes
            else tablet_reallocation_status.success)
          ∈ (reallocate_tablets_for_new_rf topo tablets new_rf).2) ∧
        ((normal_hosts_in_dc topo dc).length < rf →
          (reallocate_tablets_for_new_rf topo tablets new_rf).1.map
              (fun ts => dc_replica_count topo dc ts.info.replicas)
            = tablets.map (fun ts => dc_replica_count topo dc ts.info.replicas)) ∧
        (¬ (normal_hosts_in_dc topo dc).length < rf →
          ∀ ts ∈ (reallocate_tablets_for_new_rf topo tablets new_rf).1,
            dc_replica_count topo dc ts.info.replicas = rf ∧
            (ts.info.replicas.map tablet_replica.host).Nodup) := by
  intro new_rf
  induction new_rf with
  | nil =>
    intro tablets _ _ dc rf hmem
    cases hmem
  | cons e rest ih =>
    obtain ⟨dc0, rf0⟩ := e
    intro tablets hdcs hinv dc rf hmem
    simp only [List.map_cons, List.nodup_cons] at hdcs
    have hinv1 := @step_nodup topo dc0 rf0 hnd tablets hinv
    rcases List.mem_cons.mp hmem with hhead | htail
    · obtain ⟨he1, he2⟩ := Prod.mk.injEq .. ▸ hhead
      subst he1
      subst he2
      refine ⟨?_, ?_, ?_⟩
      · simp only [reallocate_tablets_for_new_rf]
        rw [← step_status tablets]
        exact List.mem_cons_self _ _
      · intro hl
        simp only [reallocate_tablets_for_new_rf]
        rw [realloc_other_dc hnd rest _ dc (by
          intro hdc
          exact hdcs.1 hdc)]
        rw [step_id_of_not_enough tablets hl]
      · intro hl
        simp only [reallocate_tablets_for_new_rf]
        intro ts hts
        constructor
        · have hmapeq := realloc_other_dc hnd rest
            (reallocate_for_dc topo dc rf tablets).1 dc (by
              intro hdc
              exact hdcs.1 hdc)
          have h1 : dc_replica_count topo dc ts.info.replicas
              ∈ (reallocate_tablets_for_new_rf topo
                  (reallocate_for_dc topo dc rf tablets).1 rest).1.map
                (fun ts => dc_replica_count topo dc ts.info.replicas) :=
            List.mem_map.mpr ⟨ts, hts, rfl⟩
          rw [hmapeq] at h1
          obtain ⟨ts0, hts0, heq⟩ := List.mem_map.mp h1
          rw [← heq]
          exact step_success_count hnd tablets hl ts0 hts0
        · exact realloc_nodup hnd rest _ hinv1 ts hts
    · have hne : dc ≠ dc0 := by
        intro he
        subst he
        exact hdcs.1 (List.mem_map.mpr ⟨(dc, rf), htail, rfl⟩)
      obtain ⟨hst, hnen, hsuc⟩ := ih (reallocate_for_dc topo dc0 rf0 tablets).1
        hdcs.2 hinv1 dc rf htail
      refine ⟨?_, ?_, ?_⟩
      · simp only [reallocate_tablets_for_new_rf]
        exact List.mem_cons_of_mem _ hst
      · intro hl
        simp only [reallocate_tablets_for_new_rf]
        rw [hnen hl]
        exact step_other_dc hnd hne tablets
      · intro hl
        simp only [reallocate_tablets_for_new_rf]
        exact hsuc hl

theorem C9_reallocate_tablets_for_new_rf_witness :
    (topo_new_rf.map Prod.fst).Nodup ∧
    ([((100 : Nat), (5 : Nat))].map Prod.fst).Nodup ∧
    (∀ ts ∈ tablets_new_rf, (ts.info.replicas.map tablet_replica.host).Nodup) ∧
    ((100, 5) ∈ [((100 : Nat), (5 : Nat))]) ∧
    (((100, if (normal_hosts_in_dc topo_new_rf 100).length < 5
        then tablet_reallocation_status.not_enough_nodes
        else tablet_reallocation_status.success)
      ∈ (reallocate_tablets_for_new_rf topo_new_rf tablets_new_rf [(100, 5)]).2) ∧
     ((normal_hosts_in_dc topo_new_rf 100).length < 5 →
       (reallocate_tablets_for_new_rf topo_new_rf tablets_new_rf [(100, 5)]).1.map
           (fun ts => dc_replica_count topo_new_rf 100 ts.info.replicas)
         = tablets_new_rf.map
           (fun ts => dc_replica_count topo_new_rf 100 ts.info.replicas)) ∧
     (¬ (normal_hosts_in_dc topo_new_rf 100).length < 5 →
       ∀ ts ∈ (reallocate_tablets_for_new_rf topo_new_rf tablets_new_rf [(100, 5)]).1,
         dc_replica_count topo_new_rf 100 ts.info.replicas = 5 ∧
         (ts.info.replicas.map tablet_replica.host).Nodup)) :=
  ⟨by decide, by decide, by decide, by decide,
    C9_reallocate_tablets_for_new_rf topo_new_rf (by decide)
      [(100, 5)] tablets_new_rf (by decide) (by decide) 100 5 (by decide)⟩

end locator

namespace locator

/-! ## Theorems: tablet metadata persistence -/

theorem log2_fuel_pow : ∀ (fuel b : Nat), 2 ^ b ≤ fuel → log2_fuel fuel (2 ^ b) = b := by
  intro fuel
  induction fuel with
  | zero =>
    intro b hb
    have h1 : 1 ≤ 2 ^ b := Nat.one_le_two_pow
    omega
  | succ fuel ih =>
    intro b hb
    cases b with
    | zero => simp [log2_fuel]
    | succ b =>
      have h1 : 1 ≤ 2 ^ b := Nat.one_le_two_pow
      have he : 2 ^ (b + 1) = 2 ^ b * 2 := pow_succ 2 b
      have hn1 : ¬ (2 ^ (b + 1) ≤ 1) := by omega
      rw [log2_fuel, if_neg hn1]
      have hdiv : 2 ^ (b + 1) / 2 = 2 ^ b := by
        rw [he]
        exact Nat.mul_div_cancel _ (by norm_num)
      rw [hdiv, ih b (by omega)]
      omega

theorem floor_log2_pow (b : Nat) : floor_log2 (2 ^ b) = b :=
  log2_fuel_pow _ _ (Nat.le_refl _)

theorem find_of_mem_unique {α : Type} {p : α → Bool} :
    ∀ {l : List α} {x : α}, x ∈ l → p x = true →
      (∀ y ∈ l, p y = true → y = x) → l.find? p = some x := by
  intro l
  induction l with
  | nil =>
    intro x hx
    cases hx
  | cons a l ih =>
    intro x hx hpx huniq
    by_cases hpa : p a = true
    · have ha : a = x := huniq a (List.mem_cons_self a l) hpa
      subst ha
      exact List.find?_cons_of_pos _ hpa
    · have hstep : List.find? p (a :: l) = List.find? p l :=
        List.find?_cons_of_neg _ hpa
      rw [hstep]
      have hxl : x ∈ l := by
        rcases List.mem_cons.mp hx with h | h
        · exact absurd (h ▸ hpx) hpa
        · exact h
      exact ih hxl hpx (fun y hy hpy => huniq y (List.mem_cons_of_mem _ hy) hpy)

theorem mem_eq_of_nodup_keys {β : Type} {l : List (Nat × β)} {k : Nat} {v : β}
    (hnd : (l.map Prod.fst).Nodup) (hm : (k, v) ∈ l) :
    ∀ e ∈ l, e.1 = k → e = (k, v) := by
  induction l with
  | nil =>
    intro e he
    cases he
  | cons a l ih =>
    simp only [List.map_cons, List.nodup_cons] at hnd
    intro e he hek
    rcases List.mem_cons.mp he with rfl | hel
    · rcases List.mem_cons.mp hm with h | hml
      · exact h.symm ▸ rfl
      · exfalso
        apply hnd.1
        rw [hek]
        exact List.mem_map.mpr ⟨(k, v), hml, rfl⟩
    · rcases List.mem_cons.mp hm with h | hml
      · exfalso
        subst h
        apply hnd.1
        exact List.mem_map.mpr ⟨e, hel, hek⟩
      · exact ih hnd.2 hml e hel hek

theorem mem_save_table_rows_table {ts_ : Int} {tid : Nat} {m : tablet_map} :
    ∀ r ∈ save_table_rows ts_ tid m, r.table = tid := by
  intro r hr
  unfold save_table_rows at hr
  rcases List.mem_cons.mp hr with rfl | hr
  · rfl
  · obtain ⟨id, _, rfl⟩ := List.mem_map.mp hr
    rfl

theorem min_int64_lt_last_token (b g : Nat) :
    min_int64 - 1 < last_token_of_compaction_group b g := by
  unfold min_int64 last_token_of_compaction_group token_bias
  have h0 : (0 : Int) ≤ (((g + 1) * 2 ^ (64 - b) - 1 : Nat) : Int) :=
    Int.natCast_nonneg _
  omega

theorem find_row_saved {tm : tablet_metadata} {ts_ : Int} {tid : Nat} {m : tablet_map}
    (hnd : (tm.tables.map Prod.fst).Nodup)
    (hmem : (tid, m) ∈ tm.tables) (id : Nat) (hid : id < m.tablet_count) :
    find_row (save_tablet_metadata tm ts_) tid
        (last_token_of_compaction_group m.log2_tablets id)
      = some (tablet_row ts_ tid m.log2_tablets m.tablet_count m.resize id
          (m.tablets.getD id {})) := by
  unfold find_row save_tablet_metadata
  apply find_of_mem_unique
  · apply List.mem_flatMap.mpr
    refine ⟨(tid, m), hmem, ?_⟩
    unfold save_table_rows
    apply List.mem_cons_of_mem
    exact List.mem_map.mpr ⟨id, List.mem_range.mpr hid, rfl⟩
  · simp [tablet_row]
  · intro y hy hpy
    obtain ⟨e, he, hye⟩ := List.mem_flatMap.mp hy
    simp only [Bool.and_eq_true, beq_iff_eq] at hpy
    have htab : y.table = e.1 := mem_save_table_rows_table y hye
    have he' : e = (tid, m) := mem_eq_of_nodup_keys hnd hmem e he (by
      rw [← htab]
      exact hpy.1)
    subst he'
    unfold save_table_rows at hye
    rcases List.mem_cons.mp hye with rfl | hye
    · exfalso
      have hk := hpy.2
      simp only at hk
      have hlt := min_int64_lt_last_token m.log2_tablets id
      omega
    · obtain ⟨j, hjr, rfl⟩ := List.mem_map.mp hye
      have hj : last_token_of_compaction_group m.log2_tablets j
          = last_token_of_compaction_group m.log2_tablets id := hpy.2
      have hji := last_token_injective j id hj
      subst hji
      rfl

theorem range_map_getD {α : Type} (d : α) : ∀ (l : List α),
    (List.range l.length).map (fun i => l.getD i d) = l := by
  intro l
  induction l with
  | nil => rfl
  | cons x xs ih =>
    rw [List.length_cons, List.range_succ_eq_map, List.map_cons]
    simp only [List.getD_cons_zero, List.map_map]
    have hcomp : ((fun i => (x :: xs).getD i d) ∘ Nat.succ)
        = (fun i => xs.getD i d) := by
      funext i
      simp [Function.comp, List.getD_cons_succ]
    rw [hcomp, ih]

theorem read_tablet_state_saved {tm : tablet_metadata} {ts_ : Int} {tid : Nat}
    {m : tablet_map}
    (hnd : (tm.tables.map Prod.fst).Nodup)
    (hmem : (tid, m) ∈ tm.tables) (id : Nat) (hid : id < m.tablet_count)
    (hval : ∀ ti, (m.tablets.getD id {}).transition = some ti →
      ti.next.filter (fun r => !((m.tablets.getD id {}).info.replicas.contains r))
        = [ti.pending_replica]) :
    read_tablet_state (save_tablet_metadata tm ts_) tid m.log2_tablets id
      = m.tablets.getD id {} := by
  unfold read_tablet_state
  rw [find_row_saved hnd hmem id hid]
  revert hval
  generalize m.tablets.getD id {} = st
  intro hval
  obtain ⟨⟨reps⟩, tr⟩ := st
  cases tr with
  | none => simp [tablet_row, read_transition]
  | some ti =>
    obtain ⟨stg, k, nxt, pend, sess⟩ := ti
    have hfil := hval ⟨stg, k, nxt, pend, sess⟩ rfl
    simp only at hfil
    simp only [tablet_row, read_transition, Option.map_some', Option.some_bind,
      Option.getD_some]
    rw [hfil]
    rfl

theorem filterMap_save_rows {α : Type} (ts_ : Int) (f : Nat → Nat → α) :
    ∀ (tables : List (Nat × tablet_map)),
      (tables.flatMap (fun e => save_table_rows ts_ e.1 e.2)).filterMap
        (fun r => r.tablet_count.map (fun cnt => f r.table cnt))
      = tables.map (fun e => f e.1 e.2.tablet_count) := by
  intro tables
  induction tables with
  | nil => rfl
  | cons e rest ih =>
    rw [List.flatMap_cons, List.filterMap_append, ih, List.map_cons]
    unfold save_table_rows
    rw [List.filterMap_cons]
    have hnil : ((List.range e.2.tablet_count).map (fun id =>
        tablet_row ts_ e.1 e.2.log2_tablets e.2.tablet_count e.2.resize id
          (e.2.tablets.getD id {}))).filterMap
          (fun r => r.tablet_count.map (fun cnt => f r.table cnt)) = [] := by
      rw [List.filterMap_eq_nil_iff]
      intro r hr
      obtain ⟨id, _, rfl⟩ := List.mem_map.mp hr
      rfl
    rw [hnil]
    simp

theorem read_tablet_map_saved {tm : tablet_metadata} {ts_ : Int} {tid : Nat}
    {m : tablet_map}
    (hnd : (tm.tables.map Prod.fst).Nodup)
    (hmem : (tid, m) ∈ tm.tables)
    (hwf : m.wf)
    (hval : ∀ ts ∈ m.tablets, ∀ ti, ts.transition = some ti →
      ti.next.filter (fun r => !(ts.info.replicas.contains r))
        = [ti.pending_replica]) :
    read_tablet_map (save_tablet_metadata tm ts_) tid m.tablet_count = m := by
  obtain ⟨hlen, hb⟩ := hwf
  have hcnt : m.tablet_count = 2 ^ m.log2_tablets := hlen
  have hlog : floor_log2 m.tablet_count = m.log2_tablets := by
    rw [hcnt]
    exact floor_log2_pow _
  have hcnt1 : 1 ≤ m.tablet_count := by
    have h1 : 1 ≤ 2 ^ m.log2_tablets := Nat.one_le_two_pow
    omega
  have hres : find_row (save_tablet_metadata tm ts_) tid real_max_token
      = some (tablet_row ts_ tid m.log2_tablets m.tablet_count m.resize
          (m.tablet_count - 1) (m.tablets.getD (m.tablet_count - 1) {})) := by
    have hmax : last_token_of_compaction_group m.log2_tablets (m.tablet_count - 1)
        = real_max_token := by
      rw [hcnt]
      exact last_token_of_last_group hb
    rw [← hmax]
    exact find_row_saved hnd hmem (m.tablet_count - 1) (by omega)
  have hstates : ∀ id ∈ List.range m.tablet_count,
      read_tablet_state (save_tablet_metadata tm ts_) tid m.log2_tablets id
        = m.tablets.getD id {} := by
    intro id hid
    have hid' := List.mem_range.mp hid
    apply read_tablet_state_saved hnd hmem id hid'
    intro ti hti
    have hmem2 : m.tablets.getD id {} ∈ m.tablets := by
      rw [List.getD_eq_getElem?_getD]
      rw [List.getElem?_eq_getElem hid']
      simp only [Option.getD_some]
      exact List.getElem_mem hid'
    exact hval _ hmem2 ti hti
  unfold read_tablet_map
  rw [hres, hlog]
  obtain ⟨b0, tablets, rd⟩ := m
  simp only at hstates hcnt1 ⊢
  have htab : (List.range (tablet_map.mk b0 tablets rd).tablet_count).map
      (read_tablet_state (save_tablet_metadata tm ts_) tid b0)
      = tablets := by
    rw [List.map_congr_left hstates]
    exact range_map_getD {} tablets
  simp only [tablet_map.tablet_count] at htab hcnt1
  simp only [tablet_map.mk.injEq]
  refine ⟨trivial, htab, ?_⟩
  simp only [tablet_row, if_pos rfl]
  obtain ⟨w, sq⟩ := rd
  rfl

/-- C1: for every valid tablet metadata `tm` and timestamp, persisting `tm`
to the catalog (`save_tablet_metadata`) and reading the catalog back
(`read_tablet_metadata`) yields metadata equal to `tm` — reading is an exact
inverse of persisting, including for maps carrying in-progress transitions,
session ids, resize decisions and changed tablet counts. -/
theorem C1_tablet_metadata_round_trip (tm : tablet_metadata) (ts_ : Int)
    (hvalid : tm.valid) :
    read_tablet_metadata (save_tablet_metadata tm ts_) = tm := by
  obtain ⟨hnd, hval⟩ := hvalid
  unfold read_tablet_metadata
  have htables : (save_tablet_metadata tm ts_).rows.filterMap (fun r =>
      r.tablet_count.map (fun cnt =>
        (r.table, read_tablet_map (save_tablet_metadata tm ts_) r.table cnt)))
      = tm.tables := by
    have hfm := filterMap_save_rows ts_
      (fun t cnt => (t, read_tablet_map (save_tablet_metadata tm ts_) t cnt))
      tm.tables
    rw [show (save_tablet_metadata tm ts_).rows
        = tm.tables.flatMap (fun e => save_table_rows ts_ e.1 e.2) from rfl]
    rw [hfm]
    have hcongr : ∀ e ∈ tm.tables,
        ((fun e : Nat × tablet_map =>
          (e.1, read_tablet_map (save_tablet_metadata tm ts_) e.1 e.2.tablet_count)) e)
        = e := by
      intro e he
      obtain ⟨tid, mm⟩ := e
      simp only
      have h2 := hval (tid, mm) he
      rw [read_tablet_map_saved hnd he h2.1 (fun ts hts => h2.2 ts hts)]
    rw [List.map_congr_left hcongr]
    exact List.map_id tm.tables
  rw [htables]
  rfl

theorem C1_tablet_metadata_round_trip_witness :
    persistence_fixture.valid ∧
    read_tablet_metadata (save_tablet_metadata persistence_fixture 7)
      = persistence_fixture :=
  ⟨by decide, C1_tablet_metadata_round_trip persistence_fixture 7 (by decide)⟩

end locator

namespace cql3

/-! ## Theorems: ALTER KEYSPACE validation -/

/-- C10: `alter_keyspace_statement::validate` raises `invalid_request` when
the keyspace name, compared case-insensitively (the code lowercases it before
the check), is a system keyspace; raises `configuration` when replication
options are given without a replication strategy class; and raises
`invalid_request` when the new replication strategy's vnode/tablets flavor
differs from the keyspace's current one. -/
theorem C10_alter_keyspace_validate (name : String) (env : alter_ks_env) :
    (env.is_system_keyspace (to_lower_name name) = true →
      alter_keyspace_statement.validate name env
        = .error (.invalid_request "Cannot alter system keyspace")) ∧
    (env.is_system_keyspace (to_lower_name name) = false →
     env.attrs_validate_error = none →
     env.has_replication_strategy_class = false →
     env.replication_options_empty = false →
      alter_keyspace_statement.validate name env
        = .error (.configuration "Missing replication strategy class")) ∧
    (env.is_system_keyspace (to_lower_name name) = false →
     env.attrs_validate_error = none →
     (env.has_replication_strategy_class = true ∨ env.replication_options_empty = true) →
     env.keyspace_exists = true →
     (env.storage_options_feature_enabled = true ∨ env.new_storage_is_local = true) →
     env.can_update_storage = true →
     env.new_is_per_table ≠ env.cur_is_per_table →
      alter_keyspace_statement.validate name env
        = .error (.invalid_request
            "Cannot alter replication strategy vnode/tablets flavor")) := by
  refine ⟨?_, ?_, ?_⟩
  · intro h
    simp [alter_keyspace_statement.validate, h]
  · intro h1 h2 h3 h4
    simp [alter_keyspace_statement.validate, h1, h2, h3, h4]
  · intro h1 h2 h3 h4 h5 h6 h7
    have hcls : (!env.has_replication_strategy_class
        && !env.replication_options_empty) = false := by
      rcases h3 with h | h <;> simp [h]
    have hstor : (!env.storage_options_feature_enabled
        && !env.new_storage_is_local) = false := by
      rcases h5 with h | h <;> simp [h]
    have hbne : (env.new_is_per_table != env.cur_is_per_table) = true := by
      revert h7
      cases env.new_is_per_table <;> cases env.cur_is_per_table <;> simp
    simp [alter_keyspace_statement.validate, h1, h2, hcls, h4, hstor, h6, hbne]

theorem C10_alter_keyspace_validate_witness :
    env_system.is_system_keyspace (to_lower_name "SyStEm") = true ∧
    alter_keyspace_statement.validate "SyStEm" env_system
      = .error (.invalid_request "Cannot alter system keyspace") ∧
    env_missing_class.is_system_keyspace (to_lower_name "ks") = false ∧
    alter_keyspace_statement.validate "ks" env_missing_class
      = .error (.configuration "Missing replication strategy class") ∧
    env_flavor_change.new_is_per_table ≠ env_flavor_change.cur_is_per_table ∧
    alter_keyspace_statement.validate "ks" env_flavor_change
      = .error (.invalid_request
          "Cannot alter replication strategy vnode/tablets flavor") :=
  ⟨by decide,
   (C10_alter_keyspace_validate "SyStEm" env_system).1 (by decide),
   by decide,
   (C10_alter_keyspace_validate "ks" env_missing_class).2.1
     (by decide) (by decide) (by decide) (by decide),
   by decide,
   (C10_alter_keyspace_validate "ks" env_flavor_change).2.2
     (by decide) (by decide) (Or.inl (by decide)) (by decide)
     (Or.inl (by decide)) (by decide) (by decide)⟩

end cql3
